import Mathlib

set_option maxRecDepth 2000

/-!
Verification development for the neuro-symbolic financial RAG system.

The Python sources are shallowly embedded: each definition below is translated
from the corresponding function in `knowledge_graph.py`, `verification_agents.py`,
`embedding_manager.py`, `rag_engine.py` and `financial_agent.py`.
Python floats are modelled as exact rationals, Python dicts as
insertion-ordered association lists, and the specific `re` patterns used by the
code are run on a small backtracking matcher with Python's leftmost /
ordered-alternation / greedy–lazy semantics.
-/

namespace EVL

/-- Python `\s` (ASCII range): space, tab, newline, carriage return,
vertical tab, form feed. -/
def pyWhite (c : Char) : Bool :=
  c == ' ' || c == '\t' || c == '\n' || c == '\r' || c == '\x0b' || c == '\x0c'

/-- Python `\w` (ASCII range): letters, digits, underscore. -/
def pyWord (c : Char) : Bool := c.isAlphanum || c == '_'

/-- Character class `[0-9,]` from the number-extraction patterns. -/
def digitComma (c : Char) : Bool := c.isDigit || c == ','

/-- Character class `[:\s]` from the metric-extraction patterns. -/
def colonWhite (c : Char) : Bool := c == ':' || pyWhite c

/-- Character class `[a-zA-Z\s]` from Agent E's label capture. -/
def alphaWhite (c : Char) : Bool := c.isAlpha || pyWhite c

/-- Characters of the lookahead class `[,\.\;:\n]` in Agent E's pattern. -/
def senderClass (c : Char) : Bool :=
  c == ',' || c == '.' || c == ';' || c == ':' || c == '\n'

/-- Regular-expression syntax: exactly the constructs appearing in the
patterns of `verification_agents.py` and `knowledge_graph.py`.
Alternation is ordered, quantifiers are greedy unless marked lazy,
`look` is a one-character lookahead (receives `none` at end of input). -/
inductive RE where
  | cls (p : Char → Bool)
  | lit (ci : Bool) (s : List Char)
  | eps
  | seq (a b : RE)
  | alt (a b : RE)
  | opt (a : RE)
  | plus (a : RE)
  | star (a : RE)
  | lazyPlus (a : RE)
  | group (i : Nat) (a : RE)
  | look (p : Option Char → Bool)

/-- Captured groups: group index to captured characters. -/
abbrev GState := List (Nat × List Char)

/-- Insert or replace a binding in an association list, keeping the position
of an existing key (Python dict update semantics). -/
def dictUpsert {κ ν : Type} [DecidableEq κ] (k : κ) (v : ν) :
    List (κ × ν) → List (κ × ν)
  | [] => [(k, v)]
  | (k2, v2) :: t => if k2 = k then (k, v) :: t else (k2, v2) :: dictUpsert k v t

/-- Lookup in an association list. -/
def dictFind? {κ ν : Type} [DecidableEq κ] (k : κ) : List (κ × ν) → Option ν
  | [] => none
  | (k2, v) :: t => if k2 = k then some v else dictFind? k t

/-- Strip a literal (possibly case-insensitively) from the head of the input,
returning the remainder. -/
def stripLit (ci : Bool) : List Char → List Char → Option (List Char)
  | [], s => some s
  | _ :: _, [] => none
  | c :: cs, d :: ds =>
      if (if ci then c.toLower == d.toLower else c == d) then stripLit ci cs ds
      else none

/-- One layer of the backtracking matcher, structurally recursive on the
pattern.  `iterS`/`iterL` handle a further greedy-star / lazy-plus iteration
(tied through the fuel level of `mrun`): continuations explore candidate
splits in Python's preference order (ordered alternation, greedy unless
marked lazy). -/
def mrunAux {α : Type}
    (iterS iterL : RE → List Char → GState → (List Char → GState → Option α) → Option α) :
    RE → List Char → GState → (List Char → GState → Option α) → Option α
  | .cls _, [], _, _ => none
  | .cls p, c :: rest, g, k => if p c then k rest g else none
  | .lit ci ls, s, g, k =>
      match stripLit ci ls s with
      | some s2 => k s2 g
      | none => none
  | .eps, s, g, k => k s g
  | .seq a b, s, g, k =>
      mrunAux iterS iterL a s g (fun s2 g2 => mrunAux iterS iterL b s2 g2 k)
  | .alt a b, s, g, k =>
      (mrunAux iterS iterL a s g k).orElse (fun _ => mrunAux iterS iterL b s g k)
  | .opt a, s, g, k =>
      (mrunAux iterS iterL a s g k).orElse (fun _ => k s g)
  | .plus a, s, g, k =>
      mrunAux iterS iterL a s g (fun s2 g2 =>
        if s2.length < s.length then iterS a s2 g2 k else k s2 g2)
  | .star a, s, g, k =>
      (mrunAux iterS iterL a s g (fun s2 g2 =>
        if s2.length < s.length then iterS a s2 g2 k else k s2 g2)).orElse
        (fun _ => k s g)
  | .lazyPlus a, s, g, k =>
      mrunAux iterS iterL a s g (fun s2 g2 =>
        (k s2 g2).orElse (fun _ =>
          if s2.length < s.length then iterL a s2 g2 k else none))
  | .group i a, s, g, k =>
      mrunAux iterS iterL a s g (fun s2 g2 =>
        k s2 (dictUpsert i (s.take (s.length - s2.length)) g2))
  | .look p, s, g, k => if p s.head? then k s g else none

/-- Backtracking matcher. `mrun fuel re s g k` tries to match `re` against a
prefix of `s` with capture state `g`, calling `k` on the remainder; `fuel`
bounds quantifier iterations (every iteration consumes at least one character
for the patterns in this development, so `s.length + 1` fuel is enough). -/
def mrun {α : Type} : Nat → RE → List Char →
    GState → (List Char → GState → Option α) → Option α
  | 0, _, _, _, _ => none
  | fuel + 1, re, s, g, k =>
      mrunAux (fun a => mrun fuel (.star a)) (fun a => mrun fuel (.lazyPlus a))
        re s g k

/-- Try to match the pattern starting exactly at the head of `s`; on success
return the capture state and the remainder after the match. -/
def matchHere (re : RE) (s : List Char) : Option (GState × List Char) :=
  mrun (s.length + 8) re s [] (fun rest g => some (g, rest))

/-- All matches of a pattern, scanning left to right and resuming after each
match: the semantics of `re.findall`.  The outer fuel is the remaining scan
budget (`s.length + 1` at the top level). -/
def findAllAux (re : RE) : Nat → List Char → List GState
  | 0, _ => []
  | fuel + 1, s =>
      match matchHere re s with
      | some (g, rest) =>
          if s.isEmpty then [g]
          else g :: findAllAux re fuel (if rest.length < s.length then rest else s.drop 1)
      | none =>
          match s with
          | [] => []
          | _ :: t => findAllAux re fuel t

/-- `re.findall(pattern, text)` capture states. -/
def findAll (re : RE) (s : List Char) : List GState :=
  findAllAux re (s.length + 1) s

/-- `re.search(pattern, text)`: capture state of the leftmost match, if any. -/
def reSearch (re : RE) : List Char → Option GState
  | [] => (matchHere re []).map Prod.fst
  | c :: t =>
      match matchHere re (c :: t) with
      | some (g, _) => some g
      | none => reSearch re t

/-- Bounded scanning step for `reSearch`: try at most `n` positions, returning
either the search result (`inl`) or the suffix where scanning stopped
(`inr`).  Used to evaluate `reSearch` on long inputs in bounded chunks. -/
def searchStep (re : RE) : Nat → List Char → Option GState ⊕ List Char
  | 0, s => .inr s
  | _ + 1, [] => .inl ((matchHere re []).map Prod.fst)
  | n + 1, c :: t =>
      match matchHere re (c :: t) with
      | some (g, _) => .inl (some g)
      | none => searchStep re n t

/-- Scanning a chunk without finding a match leaves `reSearch` at the
remaining suffix. -/
theorem reSearch_eq_of_searchStep_inr (re : RE) (n : Nat) :
    ∀ s s2, searchStep re n s = .inr s2 → reSearch re s = reSearch re s2 := by
  induction n with
  | zero =>
      intro s s2 h
      simp only [searchStep] at h
      cases h
      rfl
  | succ n ih =>
      intro s s2 h
      cases s with
      | nil =>
          simp only [searchStep] at h
          exact absurd h (by simp)
      | cons c t =>
          simp only [searchStep] at h
          cases hm : matchHere re (c :: t) with
          | some p =>
              rw [hm] at h
              simp at h
          | none =>
              rw [hm] at h
              simp only [reSearch, hm]
              exact ih t s2 h

/-- A chunk that resolves the search determines `reSearch`'s result. -/
theorem reSearch_eq_of_searchStep_inl (re : RE) (n : Nat) :
    ∀ s r, searchStep re n s = .inl r → reSearch re s = r := by
  induction n with
  | zero =>
      intro s r h
      simp only [searchStep] at h
      exact absurd h (by simp)
  | succ n ih =>
      intro s r h
      cases s with
      | nil =>
          simp only [searchStep] at h
          cases h
          rfl
      | cons c t =>
          simp only [searchStep] at h
          cases hm : matchHere re (c :: t) with
          | some p =>
              rw [hm] at h
              cases h
              simp only [reSearch, hm]
          | none =>
              rw [hm] at h
              simp only [reSearch, hm]
              exact ih t r h

/-- Captured text of a group, `""` when the group did not participate
(Python `findall` yields `''` for unset groups). -/
def groupStr (g : GState) (i : Nat) : List Char :=
  (dictFind? i g).getD []

/-- Python `str.lower` (ASCII). -/
def listLower (l : List Char) : List Char := l.map Char.toLower

/-- Value of a list of decimal digit characters, most significant first. -/
def decDigitsVal (l : List Char) : ℚ :=
  l.foldl (fun acc c => acc * 10 + ((c.toNat - 48 : ℕ) : ℚ)) 0

/-- Python `float()` on the strings producible by the extraction patterns
(after `$`/`,` removal): `digits`, `digits.digits`, `.digits` or `digits.`;
anything else (for instance the empty string) raises, modelled as `none`. -/
def pyFloat? (s : List Char) : Option ℚ :=
  let ip := s.takeWhile Char.isDigit
  let rest := s.drop ip.length
  match rest with
  | [] => if ip.isEmpty then none else some (decDigitsVal ip)
  | c :: frac =>
      if c == '.' && frac.all Char.isDigit && !(ip.isEmpty && frac.isEmpty) then
        some (decDigitsVal ip + decDigitsVal frac / ((10 : ℚ) ^ frac.length))
      else none

/-- Python `int()` truncation of a float value (toward zero). -/
def pyTrunc (q : ℚ) : Int := Int.tdiv q.num q.den

/-- Round a rational to the nearest integer, ties to even: the rounding used
by Python's fixed-point float formatting. -/
def roundHalfEven (q : ℚ) : Int :=
  let n := Int.fdiv q.num q.den
  let twice := 2 * q.num
  let mid := (2 * n + 1) * (q.den : Int)
  if twice < mid then n
  else if mid < twice then n + 1
  else if n % 2 = 0 then n else n + 1

/-- Python `f"{x:.pf}"` fixed-point formatting with `p` fractional digits. -/
def formatFixed (prec : Nat) (q : ℚ) : List Char :=
  let n := roundHalfEven (q * ((10 : ℚ) ^ prec))
  let m := n.natAbs
  let fracDigits := Nat.toDigits 10 (m % 10 ^ prec)
  let padded := List.replicate (prec - fracDigits.length) '0' ++ fracDigits
  (if q < 0 then ['-'] else []) ++ Nat.toDigits 10 (m / 10 ^ prec) ++ '.' :: padded

/-- Smallest number of decimal digits needed after the point (0 when the
value is an integer); fuelled search, enough for every parser-producible
value. -/
def decExp : Nat → ℚ → Nat
  | 0, _ => 0
  | fuel + 1, q => if q.den = 1 then 0 else 1 + decExp fuel (q * 10)

/-- Python `str()` of a float with terminating decimal expansion: shortest
decimal form with at least one fractional digit (`str(999.0) = "999.0"`). -/
def pyFloatRepr (q : ℚ) : List Char :=
  formatFixed (max 1 (decExp 64 q)) q

/-- Python `pat in s` substring test. -/
def isSubstrOf (pat : List Char) : List Char → Bool
  | [] => pat.isEmpty
  | c :: t => pat.isPrefixOf (c :: t) || isSubstrOf pat t

/-- Python `str.strip()` (ASCII whitespace). -/
def pyStrip (l : List Char) : List Char :=
  ((l.dropWhile pyWhite).reverse.dropWhile pyWhite).reverse

mutual

/-- Inside a word of `str.split()`: `cur` holds the reversed current word. -/
def wordsA (cur : List Char) : List Char → List (List Char)
  | [] => [cur.reverse]
  | c :: t => if pyWhite c then cur.reverse :: wordsB t else wordsA (c :: cur) t

/-- Between words of `str.split()`: skipping whitespace. -/
def wordsB : List Char → List (List Char)
  | [] => []
  | c :: t => if pyWhite c then wordsB t else wordsA [c] t

end

/-- Python `str.split()` with no separator: whitespace-delimited words,
no empty pieces. -/
def pySplitWs (s : List Char) : List (List Char) := wordsB s

/-- Sentence enders of Agent V's `re.split(r"[\.!\?]+", text)`. -/
def sentEnder (c : Char) : Bool := c == '.' || c == '!' || c == '?'

mutual

/-- Inside a piece of the sentence split; `cur` is the reversed piece. -/
def sentA (cur : List Char) : List Char → List (List Char)
  | [] => [cur.reverse]
  | c :: t => if sentEnder c then cur.reverse :: sentB t else sentA (c :: cur) t

/-- Just after a separator run of the sentence split. -/
def sentB : List Char → List (List Char)
  | [] => [[]]
  | c :: t => if sentEnder c then sentB t else sentA [c] t

end

/-- Python `re.split(r"[\.!\?]+", text)`: split on maximal runs of the three
enders, keeping empty leading/trailing pieces. -/
def reSplitSent (s : List Char) : List (List Char) := sentA [] s

/-- Python `str.title()` (ASCII): uppercase a letter not following a letter,
lowercase the rest. -/
def pyTitleAux : Bool → List Char → List Char
  | _, [] => []
  | prev, c :: t =>
      if c.isAlpha then (if prev then c.toLower else c.toUpper) :: pyTitleAux true t
      else c :: pyTitleAux false t

/-- Python `str.title()`. -/
def pyTitle (s : List Char) : List Char := pyTitleAux false s

/-- Single-character pattern. -/
def chr1 (c : Char) : RE := .cls (fun d => d == c)

/-- Literal pattern from a string (`ci` = case-insensitive). -/
def litS (ci : Bool) (s : String) : RE := .lit ci s.data

/-- Agent E's number pattern
`(\$?[0-9,]+(?:\.[0-9]+)?)\s*(?:B|M|billion|million|%)?(?:\s+(?:in\s+)?([a-zA-Z\s]+?))?(?=[,\.\;:\n]|$)`
(case-sensitive, from `VerificationAgentE.extract_numbers`). -/
def numberRe : RE :=
  .seq (.group 1 (.seq (.opt (chr1 '$'))
    (.seq (.plus (.cls digitComma))
      (.opt (.seq (chr1 '.') (.plus (.cls Char.isDigit)))))))
  (.seq (.star (.cls pyWhite))
    (.seq (.opt (.alt (litS false "B") (.alt (litS false "M")
      (.alt (litS false "billion") (.alt (litS false "million") (litS false "%"))))))
      (.seq (.opt (.seq (.plus (.cls pyWhite))
        (.seq (.opt (.seq (litS false "in") (.plus (.cls pyWhite))))
          (.group 2 (.lazyPlus (.cls alphaWhite))))))
        (.look (fun oc => match oc with
          | none => true
          | some c => senderClass c)))))

/-- Agent L growth pattern `(\w+)\s+(?:grew|increased|rose|climbed)`,
case-insensitive. -/
def trendUpRe : RE :=
  .seq (.group 1 (.plus (.cls pyWord)))
    (.seq (.plus (.cls pyWhite))
      (.alt (litS true "grew") (.alt (litS true "increased")
        (.alt (litS true "rose") (litS true "climbed")))))

/-- Agent L decline pattern `(\w+)\s+(?:declined|decreased|fell|dropped)`,
case-insensitive. -/
def trendDownRe : RE :=
  .seq (.group 1 (.plus (.cls pyWord)))
    (.seq (.plus (.cls pyWhite))
      (.alt (litS true "declined") (.alt (litS true "decreased")
        (.alt (litS true "fell") (litS true "dropped")))))

/-- Agent L stability pattern `(\w+)\s+(?:was\s+)?stable|flat|consistent`,
case-insensitive; the alternation is top-level, exactly as in the source, so
`flat`/`consistent` matches leave group 1 unset. -/
def trendStableRe : RE :=
  .alt (.seq (.group 1 (.plus (.cls pyWord)))
      (.seq (.plus (.cls pyWhite))
        (.seq (.opt (.seq (litS true "was") (.plus (.cls pyWhite))))
          (litS true "stable"))))
    (.alt (litS true "flat") (litS true "consistent"))

/-- The shared number group `([0-9,]+(?:\.[0-9]+)?)` of the metric patterns. -/
def numGroupRe : RE :=
  .group 1 (.seq (.plus (.cls digitComma))
    (.opt (.seq (chr1 '.') (.plus (.cls Char.isDigit)))))

/-- Builder for `(?:PRE\s+)?WORD[:\s]+\$?NUM\s*(?:UA|UB)` metric patterns of
`extract_metrics_from_text` (all compiled with `re.IGNORECASE`). -/
def moneyRe (pre word unitA unitB : String) : RE :=
  .seq (.opt (.seq (litS true pre) (.plus (.cls pyWhite))))
    (.seq (litS true word)
      (.seq (.plus (.cls colonWhite))
        (.seq (.opt (chr1 '$'))
          (.seq numGroupRe
            (.seq (.star (.cls pyWhite))
              (.alt (litS true unitA) (litS true unitB)))))))

/-- Builder for the margin patterns `(?:PRE\s+)?margin[:\s]+NUM\s*%`. -/
def marginRe (pre : String) : RE :=
  .seq (.opt (.seq (litS true pre) (.plus (.cls pyWhite))))
    (.seq (litS true "margin")
      (.seq (.plus (.cls colonWhite))
        (.seq numGroupRe (.seq (.star (.cls pyWhite)) (chr1 '%')))))

/-- EPS pattern `(?:earnings?\s+per\s+share|EPS)[:\s]+\$?NUM`. -/
def epsRe : RE :=
  .seq (.alt (.seq (litS true "earning") (.seq (.opt (litS true "s"))
      (.seq (.plus (.cls pyWhite))
        (.seq (litS true "per")
          (.seq (.plus (.cls pyWhite)) (litS true "share"))))))
    (litS true "EPS"))
    (.seq (.plus (.cls colonWhite)) (.seq (.opt (chr1 '$')) numGroupRe))

/-- Attribute values stored on NetworkX nodes and edges: the code only stores
strings, integers (years) and floats (metric values, similarities). -/
inductive AVal where
  | s (v : String)
  | i (v : Int)
  | q (v : ℚ)
deriving DecidableEq

/-- A NetworkX attribute dictionary. -/
abbrev Attrs := List (String × AVal)

/-- State of `FinancialKnowledgeGraph`: the directed graph (nodes and edges
with attribute dicts), the `metadata` map, and the
`ticker → metric → year → value` history. Edges are keyed by the ordered
pair `(source, target)`, as in a NetworkX `DiGraph`. -/
structure FinKG where
  nodes : List (String × Attrs) := []
  edges : List ((String × String) × Attrs) := []
  metadata : List (String × Attrs) := []
  metrics_history : List (String × List (String × List (Int × ℚ))) := []
deriving DecidableEq

/-- NetworkX attribute update: existing keys are overwritten in place, new
keys appended. -/
def attrsUpdate (old new : Attrs) : Attrs :=
  new.foldl (fun acc kv => dictUpsert kv.1 kv.2 acc) old

/-- `graph.add_node(key, **attrs)`: inserts the node, or merges the attributes
into an existing node's dict. -/
def kgAddNode (g : FinKG) (key : String) (attrs : Attrs) : FinKG :=
  match dictFind? key g.nodes with
  | some old => { g with nodes := dictUpsert key (attrsUpdate old attrs) g.nodes }
  | none => { g with nodes := g.nodes ++ [(key, attrs)] }

/-- `graph.add_edge(u, v, **attrs)`: adds missing endpoints as bare nodes,
then inserts the edge or merges attributes into an existing edge's dict. -/
def kgAddEdge (g : FinKG) (u v : String) (attrs : Attrs) : FinKG :=
  let g1 := if (dictFind? u g.nodes).isSome then g
            else { g with nodes := g.nodes ++ [(u, [])] }
  let g2 := if (dictFind? v g1.nodes).isSome then g1
            else { g1 with nodes := g1.nodes ++ [(v, [])] }
  match dictFind? (u, v) g2.edges with
  | some old => { g2 with edges := dictUpsert (u, v) (attrsUpdate old attrs) g2.edges }
  | none => { g2 with edges := g2.edges ++ [((u, v), attrs)] }

/-- `add_company_node`; the `created_at` timestamp taken by the source from
`datetime.utcnow()` is passed in as `now`. -/
def add_company_node (g : FinKG) (ticker company_name sector market now : String) :
    FinKG :=
  let g1 := kgAddNode g ticker
    [("node_type", .s "company"), ("name", .s company_name),
     ("sector", .s sector), ("market", .s market)]
  let md := dictUpsert ticker
    [("name", .s company_name), ("sector", .s sector), ("market", .s market),
     ("created_at", .s now)] g1.metadata
  { g1 with metadata := md }

/-- The composite node key `f"{ticker}_{metric_name}_{year}"`. -/
def metricKey (ticker metric_name : String) (year : Int) : String :=
  ticker ++ "_" ++ metric_name ++ "_" ++ toString year

/-- `add_metric_node`: upserts the metric node, the `has_metric` edge, and the
`metrics_history` entry. -/
def add_metric_node (g : FinKG) (ticker metric_name : String) (value : ℚ)
    (year : Int) : FinKG :=
  let key := metricKey ticker metric_name year
  let g1 := kgAddNode g key
    [("node_type", .s "metric"), ("ticker", .s ticker), ("metric", .s metric_name),
     ("value", .q value), ("year", .i year)]
  let g2 := kgAddEdge g1 ticker key [("relationship", .s "has_metric")]
  let tm := (dictFind? ticker g2.metrics_history).getD []
  let ym := (dictFind? metric_name tm).getD []
  let mh := dictUpsert ticker (dictUpsert metric_name (dictUpsert year value ym) tm)
    g2.metrics_history
  { g2 with metrics_history := mh }

/-- `add_sector_node`: adds the sector node only when absent. -/
def add_sector_node (g : FinKG) (sector : String) : FinKG :=
  if (dictFind? sector g.nodes).isSome then g
  else kgAddNode g sector [("node_type", .s "sector")]

/-- `add_peer_relationship`. -/
def add_peer_relationship (g : FinKG) (ticker1 ticker2 : String) (similarity : ℚ) :
    FinKG :=
  kgAddEdge g ticker1 ticker2
    [("relationship", .s "peer"), ("similarity", .q similarity)]

/-- `add_sector_relationship`. -/
def add_sector_relationship (g : FinKG) (ticker sector : String) : FinKG :=
  kgAddEdge (add_sector_node g sector) ticker sector
    [("relationship", .s "belongs_to")]

/-- `get_peers`: iterates `self.graph[ticker]`, which raises `KeyError` when
the node is absent — modelled as `Except.error`. -/
def get_peers (g : FinKG) (ticker : String) : Except String (List String) :=
  if (dictFind? ticker g.nodes).isNone then .error "KeyError"
  else .ok ((g.edges.filter (fun e =>
    e.1.1 == ticker && dictFind? "relationship" e.2 == some (.s "peer"))).map
      (fun e => e.1.2))

/-- `get_metrics(ticker, metric_name)` with a metric name: the year-to-value
history, empty when ticker or metric is unknown. -/
def get_metrics (g : FinKG) (ticker metric_name : String) : List (Int × ℚ) :=
  match dictFind? ticker g.metrics_history with
  | none => []
  | some tm => (dictFind? metric_name tm).getD []

/-- `get_metrics(ticker)` without a metric name: the full metric map for the
ticker. -/
def get_metrics_all (g : FinKG) (ticker : String) : List (String × List (Int × ℚ)) :=
  (dictFind? ticker g.metrics_history).getD []

/-- `get_trend`: `([], [], "unknown")` on fewer than two data points; otherwise
years sorted ascending, values aligned by year lookup, and the trend label
computed from the endpoint percent change. -/
def get_trend (g : FinKG) (ticker metric_name : String) :
    List Int × List ℚ × String :=
  let metrics := get_metrics g ticker metric_name
  if metrics.length < 2 then ([], [], "unknown")
  else
    let years := List.insertionSort (fun a b => a ≤ b) (metrics.map Prod.fst)
    let values := years.map (fun y => (dictFind? y metrics).getD 0)
    let trend :=
      if values.length ≥ 2 then
        let first := values.headD 0
        let last := values.getLastD 0
        let change_pct := if first ≠ 0 then ((last - first) / abs first) * 100 else 0
        if change_pct > 5 then "up"
        else if change_pct < -5 then "down"
        else "stable"
      else "unknown"
    (years, values, trend)

/-- Remove the `,` characters (Python `.replace(",", "")`). -/
def stripCommas (l : List Char) : List Char := l.filter (fun c => !(c == ','))

/-- One pattern family of `extract_metrics_from_text`: try each `(pattern,
multiplier)` in order; the first pattern that matches and whose captured
number parses wins (`break`), parse failures fall through (`except: pass`). -/
def familySearch (pats : List (RE × ℚ)) (text : List Char) : Option ℚ :=
  match pats with
  | [] => none
  | (p, mult) :: rest =>
      match reSearch p text with
      | some g =>
          match pyFloat? (stripCommas (groupStr g 1)) with
          | some v => some (v * mult)
          | none => familySearch rest text
      | none => familySearch rest text

/-- The `rev_patterns` list with scale multipliers. -/
def rev_patterns : List (RE × ℚ) :=
  [(moneyRe "total" "revenue" "B" "Billion", 1000000000),
   (moneyRe "total" "revenue" "M" "Million", 1000000),
   (moneyRe "net" "sales" "B" "Billion", 1000000000),
   (moneyRe "net" "sales" "M" "Million", 1000000)]

/-- The `ni_patterns` list with scale multipliers. -/
def ni_patterns : List (RE × ℚ) :=
  [(moneyRe "net" "income" "B" "Billion", 1000000000),
   (moneyRe "net" "income" "M" "Million", 1000000),
   (moneyRe "net" "profit" "B" "Billion", 1000000000),
   (moneyRe "net" "profit" "M" "Million", 1000000)]

/-- The `margin_patterns` list (no scale multiplier in the source). -/
def margin_patterns : List (RE × ℚ) :=
  [(marginRe "net", 1), (marginRe "operating", 1)]

/-- `extract_metrics_from_text`: the returned metric map (in insertion order
revenue, net_income, margin, eps) and the graph updated by `add_metric_node`
for every extracted value. -/
def extract_metrics_from_text (g : FinKG) (text : List Char) (ticker : String)
    (year : Int) : List (String × ℚ) × FinKG :=
  let metrics : List (String × ℚ) :=
    (match familySearch rev_patterns text with
     | some v => [("revenue", v)]
     | none => []) ++
    (match familySearch ni_patterns text with
     | some v => [("net_income", v)]
     | none => []) ++
    (match familySearch margin_patterns text with
     | some v => [("margin", v)]
     | none => []) ++
    (match familySearch [(epsRe, 1)] text with
     | some v => [("eps", v)]
     | none => [])
  (metrics, metrics.foldl (fun acc kv => add_metric_node acc ticker kv.1 kv.2 year) g)

/-- Render an attribute value the way Python string-formats it. -/
def avalText (v : AVal) : String :=
  match v with
  | .s w => w
  | .i w => toString w
  | .q w => String.mk (pyFloatRepr w)

/-- Maximum of a list of years (`max(years_data.keys())`); the list is always
nonempty where this is used. -/
def listMaxInt : List Int → Int
  | [] => 0
  | [x] => x
  | x :: y :: t => max x (listMaxInt (y :: t))

/-- Digits of the integer part grouped in threes with commas, as in Python's
`{value:,.2f}` format. -/
def groupThrees (ds : List Char) : List Char :=
  ((chunk3 ds.reverse).intersperse [',']).flatten.reverse
where
  chunk3 : List Char → List (List Char)
    | [] => []
    | [a] => [[a]]
    | [a, b] => [[a, b]]
    | a :: b :: c :: t => [a, b, c] :: chunk3 t

/-- Python `f"{q:,.2f}"`. -/
def formatComma2 (q : ℚ) : List Char :=
  let n := roundHalfEven (q * 100)
  let m := n.natAbs
  let fracDigits := Nat.toDigits 10 (m % 100)
  let padded := List.replicate (2 - fracDigits.length) '0' ++ fracDigits
  (if q < 0 then ['-'] else []) ++
    groupThrees (Nat.toDigits 10 (m / 100)) ++ '.' :: padded

/-- `get_context_prompt`: renders the company line (guarded by node
membership), the peers (via the unguarded `get_peers`, so a missing node
propagates `KeyError`), and the latest value of every tracked metric. -/
def get_context_prompt (g : FinKG) (ticker : String) : Except String String :=
  let companyParts :=
    match dictFind? ticker g.nodes with
    | some attrs =>
        let nm := ((dictFind? "name" attrs).map avalText).getD ticker
        let sec := ((dictFind? "sector" attrs).map avalText).getD "Unknown"
        [s!"Company: {nm} ({ticker})", s!"Sector: {sec}"]
    | none => []
  match get_peers g ticker with
  | .error e => .error e
  | .ok peers =>
      let pj := String.intercalate ", " peers
      let peerParts := if peers.isEmpty then [] else [s!"Peers: {pj}"]
      let metrics := get_metrics_all g ticker
      let metricParts :=
        if metrics.isEmpty then [] else
          "\nKey Metrics (Historical):" ::
            metrics.filterMap (fun mv =>
              if mv.2.isEmpty then none else
                let latest_year := listMaxInt (mv.2.map Prod.fst)
                let latest_value := (dictFind? latest_year mv.2).getD 0
                let title := String.mk (pyTitle mv.1.data)
                let ys := toString latest_year
                let vs := String.mk (formatComma2 latest_value)
                some s!"  {title} ({ys}): {vs}")
      .ok (String.intercalate "\n" (companyParts ++ peerParts ++ metricParts))

/-- A retrieved source chunk as the verifier sees it: the code reads
`chunk.get('metadata', {}).get('text', '') or chunk.get('text', '')`, so only
the two optional text fields matter (absent fields are `""`). -/
structure SourceChunk where
  metaText : String := ""
  text : String := ""
deriving DecidableEq

/-- The chunk text actually consulted (Python `or` of the two lookups). -/
def chunkText (c : SourceChunk) : String :=
  if c.metaText ≠ "" then c.metaText else c.text

/-- The `VerificationResult` dataclass. -/
structure VerificationResult where
  agent : String
  status : String
  details : String
  corrections : Option String := none
  confidence_penalty : ℚ := 0
deriving DecidableEq

/-- `VerificationAgentE.extract_numbers`: findall of the number pattern, then
`float()` on group 1 with `$`/`,` removed (failures skipped) paired with the
stripped group 2 label. -/
def extract_numbers (text : String) : List (ℚ × String) :=
  (findAll numberRe text.data).filterMap (fun g =>
    match pyFloat? ((groupStr g 1).filter (fun c => !(c == '$' || c == ','))) with
    | some num => some (num, String.mk (pyStrip (groupStr g 2)))
    | none => none)

/-- One number is found in some chunk in integer, two-decimal or one-decimal
form (`str(int(num))`, `f"{num:.2f}"`, `f"{num:.1f}"`). -/
def numberInChunk (num : ℚ) (ch : SourceChunk) : Bool :=
  let t := (chunkText ch).data
  isSubstrOf (toString (pyTrunc num)).data t ||
    isSubstrOf (formatFixed 2 num) t || isSubstrOf (formatFixed 1 num) t

/-- `VerificationAgentE.cross_check_numbers`: split the extracted numbers into
verified and unverified claim strings `f"{num} ({metric})"`. -/
def cross_check_numbers (nums : List (ℚ × String))
    (source_chunks : List SourceChunk) : List String × List String :=
  nums.foldl (fun acc nm =>
    let numS := String.mk (pyFloatRepr nm.1)
    let claim := numS ++ " (" ++ nm.2 ++ ")"
    if source_chunks.any (numberInChunk nm.1) then (acc.1 ++ [claim], acc.2)
    else (acc.1, acc.2 ++ [claim])) ([], [])

/-- `VerificationAgentE.verify`. -/
def agentE_verify (answer : String) (source_chunks : List SourceChunk) :
    VerificationResult :=
  let numbers := extract_numbers answer
  if numbers.isEmpty then
    { agent := "E", status := "PASS", details := "No numerical claims to verify.",
      confidence_penalty := 0 }
  else
    let vh := cross_check_numbers numbers source_chunks
    if vh.2.isEmpty then
      let n := toString vh.1.length
      { agent := "E", status := "PASS",
        details := s!"All {n} numerical claims verified against sources.",
        confidence_penalty := 0 }
    else
      let vj := if vh.1.isEmpty then "None" else String.intercalate ", " vh.1
      let hj := String.intercalate ", " vh.2
      let n := toString vh.2.length
      { agent := "E", status := "FAIL",
        details := s!"Found {n} unverified numerical claims: {hj}",
        corrections := some s!"Verified numbers: {vj}. Unverified: {hj}",
        confidence_penalty := 3/10 }

/-- `VerificationAgentV.extract_claims`: sentence-like pieces longer than 10
characters after stripping. -/
def extract_claims (text : String) : List String :=
  ((reSplitSent text.data).map pyStrip).filterMap (fun s =>
    if s.length > 10 then some (String.mk s) else none)

/-- The set of lowercased claim words longer than 3 characters. -/
def claimWords (claim : String) : List (List Char) :=
  ((pySplitWs (listLower claim.data)).filter (fun w => w.length > 3)).dedup

/-- Overlap ratio of a claim's word set against one chunk:
`|claim_words ∩ chunk_words| / (|claim_words| + 1e-6)`. -/
def chunkOverlap (cw : List (List Char)) (ch : SourceChunk) : ℚ :=
  let chw := pySplitWs (listLower (chunkText ch).data)
  ((cw.filter (fun w => chw.contains w)).length : ℚ) /
    ((cw.length : ℚ) + 1 / 1000000)

/-- `VerificationAgentV.check_claim_support`: best overlap over all chunks;
supported iff it exceeds 0.4. -/
def check_claim_support (claim : String) (source_chunks : List SourceChunk) :
    Bool × ℚ :=
  let cw := claimWords claim
  let mo := source_chunks.foldl (fun m ch => max m (chunkOverlap cw ch)) 0
  (decide ((2 : ℚ) / 5 < mo), mo)

/-- `VerificationAgentV.verify`. -/
def agentV_verify (answer : String) (source_chunks : List SourceChunk) :
    VerificationResult :=
  let claims := extract_claims answer
  if claims.isEmpty then
    { agent := "V", status := "PASS", details := "No claims to verify.",
      confidence_penalty := 0 }
  else
    let supported := (claims.filter (fun c => (check_claim_support c source_chunks).1)).map
      (fun c => String.mk (c.data.take 50))
    let unsupported := (claims.filter (fun c => !(check_claim_support c source_chunks).1)).map
      (fun c => String.mk (c.data.take 50))
    if unsupported.isEmpty then
      let n := toString supported.length
      { agent := "V", status := "PASS",
        details := s!"All {n} claims verified in sources.", confidence_penalty := 0 }
    else
      let n := toString unsupported.length
      let uj := String.intercalate "; " (unsupported.take 2)
      { agent := "V", status := "FAIL", details := s!"Found {n} unsupported claims.",
        corrections := some s!"Unsupported: {uj}...", confidence_penalty := 1/4 }

/-- `VerificationAgentL.extract_trend_claims`: the three findall passes in
order, tagging matches with the per-pattern direction constant. -/
def extract_trend_claims (text : String) : List (String × String) :=
  ((findAll trendUpRe text.data).map (fun g => (String.mk (groupStr g 1), "growth"))) ++
  ((findAll trendDownRe text.data).map (fun g => (String.mk (groupStr g 1), "decline"))) ++
  ((findAll trendStableRe text.data).map (fun g => (String.mk (groupStr g 1), "stable")))

/-- The anomaly recorded for one claimed `(metric, direction)` pair, when the
store's trend for the lowercased metric has history and a label different
from the claimed direction. -/
def anomalyFor (kg : FinKG) (ticker : String) (claim : String × String) :
    Option String :=
  let r := get_trend kg ticker (String.mk (listLower claim.1.data))
  if !r.1.isEmpty && !(r.2.2 == "unknown") && !(r.2.2 == claim.2) then
    some (claim.1 ++ ": claimed " ++ claim.2 ++ " but historically " ++ r.2.2)
  else none

/-- Agent L's vacuous result when no store or no ticker is supplied. -/
def verificationL_noData : VerificationResult :=
  { agent := "L", status := "PASS",
    details := "No historical data available for trend verification.",
    confidence_penalty := 0 }

/-- `VerificationAgentL.verify`; `not knowledge_graph or not ticker` is true
for an absent store, an absent ticker or an empty ticker string. -/
def agentL_verify (answer : String) (knowledge_graph : Option FinKG)
    (ticker : Option String) : VerificationResult :=
  match knowledge_graph, ticker with
  | some kg, some t =>
      if t == "" then verificationL_noData
      else
        let trend_claims := extract_trend_claims answer
        if trend_claims.isEmpty then
          { agent := "L", status := "PASS", details := "No trend claims to verify.",
            confidence_penalty := 0 }
        else
          let anomalies := trend_claims.filterMap (anomalyFor kg t)
          if anomalies.isEmpty then
            let n := toString trend_claims.length
            { agent := "L", status := "PASS",
              details := s!"All {n} trend claims consistent with history.",
              confidence_penalty := 0 }
          else
            let n := toString anomalies.length
            let aj := String.intercalate "; " (anomalies.take 2)
            { agent := "L", status := "FAIL",
              details := s!"Found {n} trend inconsistencies.",
              corrections := some s!"Anomalies: {aj}", confidence_penalty := 3/20 }
  | _, _ => verificationL_noData

/-- The aggregate returned by `EVLVerificationFramework.verify_answer`. -/
structure VerifyAnswerResult where
  all_pass : Bool
  confidence_adjustment : ℚ
  agent_results : List VerificationResult
  final_confidence_score : ℚ
  verification_summary : String
deriving DecidableEq

/-- Summary lines contributed by one agent result. -/
def resultSummaryLines (r : VerificationResult) : List String :=
  let symbol := if r.status == "PASS" then "[PASS]" else "[FAIL]"
  let ag := r.agent
  let det := r.details
  let line1 := s!"Agent {ag}: {symbol} {det}"
  match r.corrections with
  | some c => [line1, s!"  -> Correction: {c}"]
  | none => [line1]

/-- `EVLVerificationFramework.verify_answer`: run E, V, L and combine. -/
def verify_answer (answer : String) (source_chunks : List SourceChunk)
    (knowledge_graph : Option FinKG) (ticker : Option String) :
    VerifyAnswerResult :=
  let result_e := agentE_verify answer source_chunks
  let result_v := agentV_verify answer source_chunks
  let result_l := agentL_verify answer knowledge_graph ticker
  let results := [result_e, result_v, result_l]
  let all_pass := results.all (fun r => r.status == "PASS")
  let total_penalty := (results.map (fun r => r.confidence_penalty)).sum
  let base_confidence : ℚ := if all_pass then 19/20 else 3/5
  { all_pass := all_pass
    confidence_adjustment := -total_penalty
    agent_results := results
    final_confidence_score := max 0 (min 1 (base_confidence - total_penalty))
    verification_summary :=
      String.intercalate "\n" ((results.map resultSummaryLines).flatten) }

/-- Decimal digits of a natural number, least significant first (empty for 0),
by structural recursion on a fuel bound. -/
def natDigitsAux : Nat → Nat → List Nat
  | 0, _ => []
  | f + 1, n => if n = 0 then [] else n % 10 :: natDigitsAux f (n / 10)

/-- Decimal digits of a natural number, least significant first. -/
def decDigits (n : Nat) : List Nat := natDigitsAux n n

/-- Value of a least-significant-first decimal digit list. -/
def decValN : List Nat → Nat
  | [] => 0
  | d :: t => d + 10 * decValN t

/-- The serialized form of a year key: Python `str(year)` modelled as sign
flag plus decimal digits. -/
def strOfYear (y : Int) : Bool × List Nat := (decide (y < 0), decDigits y.natAbs)

/-- Python `int()` of a serialized year key. -/
def intOfYearStr (p : Bool × List Nat) : Int :=
  if p.1 then -(decValN p.2 : Int) else (decValN p.2 : Int)

instance : DecidableEq (String × List ((Bool × List Nat) × ℚ)) := inferInstance

instance : DecidableEq (List (String × List ((Bool × List Nat) × ℚ))) := inferInstance

instance : DecidableEq (String × List (String × List ((Bool × List Nat) × ℚ))) := inferInstance

instance : DecidableEq (List (String × List (String × List ((Bool × List Nat) × ℚ)))) := inferInstance

/-- The JSON payload written by `FinancialKnowledgeGraph.save`: node list,
edge list, metric history with stringified year keys, and the metadata map. -/
structure KGSaved where
  nodes : List (String × Attrs)
  edges : List ((String × String) × Attrs)
  metrics_history : List (String × List (String × List ((Bool × List Nat) × ℚ)))
  metadata : List (String × Attrs)
deriving DecidableEq

/-- `FinancialKnowledgeGraph.save` (serialization structure only; file I/O is
out of scope). -/
def kgSave (g : FinKG) : KGSaved :=
  { nodes := g.nodes
    edges := g.edges
    metrics_history := g.metrics_history.map (fun tm =>
      (tm.1, tm.2.map (fun mm => (mm.1, mm.2.map (fun yv => (strOfYear yv.1, yv.2))))))
    metadata := g.metadata }

/-- `FinancialKnowledgeGraph.load`: clear the graph, re-add every saved node
and edge, and rebuild `metrics_history` with year keys converted back to
integers and `metadata` taken verbatim. -/
def kgLoad (d : KGSaved) : FinKG :=
  let g0 : FinKG := {}
  let g1 := d.nodes.foldl (fun acc nv => kgAddNode acc nv.1 nv.2) g0
  let g2 := d.edges.foldl (fun acc ev => kgAddEdge acc ev.1.1 ev.1.2 ev.2) g1
  { g2 with
    metrics_history := d.metrics_history.map (fun tm =>
      (tm.1, tm.2.map (fun mm => (mm.1, mm.2.map (fun yv => (intOfYearStr yv.1, yv.2))))))
    metadata := d.metadata }

/-- Mock-path `search_similar_chunks` (sentence-transformers unavailable):
iterate over `metadata[:k]` drawing a random score per index, keep entries
whose score passes the threshold, and fall back to `[(metadata[0], 0.8)]`
when none does — an `IndexError` (modelled `none`) on an empty index.  The
random draws are supplied as the oracle `rand`. -/
def search_similar_chunks_mock (metadata : List String) (rand : Nat → ℚ)
    (k : Nat) (threshold : ℚ) : Option (List (String × ℚ)) :=
  let results := (metadata.take k).enum.filterMap (fun mi =>
    if rand mi.1 ≥ threshold then some (mi.2, rand mi.1) else none)
  if !results.isEmpty then some results
  else
    match metadata with
    | [] => none
    | m :: _ => some [(m, 4/5)]

/-- Python list indexing with negative-index wraparound; `none` is an
`IndexError`. -/
def pyIndex {α : Type} (l : List α) (i : Int) : Option α :=
  if 0 ≤ i then l.get? i.toNat
  else if 0 ≤ (l.length : Int) + i then l.get? ((l.length : Int) + i).toNat
  else none

/-- Real-path `search_similar_chunks` post-processing of the FAISS result:
for each `(distance, index)` pair keep pairs with score at least the
threshold, reading `metadata[idx]` when `idx < len(metadata)` (Python
negative indexing applies to the `-1` padding FAISS emits, raising on an
empty index) and `{}` (here `""`) otherwise. -/
def search_similar_chunks_real (metadata : List String)
    (faiss_out : List (ℚ × Int)) (threshold : ℚ) : Option (List (String × ℚ)) :=
  faiss_out.foldl (fun acc di =>
    match acc with
    | none => none
    | some results =>
        if di.1 < threshold then some results
        else if di.2 < (metadata.length : Int) then
          match pyIndex metadata di.2 with
          | some m => some (results ++ [(m, di.1)])
          | none => none
        else some (results ++ [("", di.1)])) (some [])

/-- `RAGChain.generate_answer` confidence selection: the verification
framework's final score when verification is enabled, the constant `0.8`
otherwise; the result dict always carries this value (`some`). -/
def generate_answer_confidence (answer : String) (sources : List SourceChunk)
    (knowledge_graph : Option FinKG) (ticker : Option String)
    (enable_verification : Bool) : Option ℚ :=
  if enable_verification then
    some (verify_answer answer sources knowledge_graph ticker).final_confidence_score
  else some (4/5)

/-- `UnifiedFinancialAgent.calculate_confidence_score`: 0.4 for any digit in
the answer, 0.4 for at least two sources, plus 0.05 per source capped at
0.2, all capped at 1. -/
def calculate_confidence_score (answer : String) (sources : List SourceChunk) : ℚ :=
  let score : ℚ :=
    (if answer.data.any Char.isDigit then 2/5 else 0) +
    (if sources.length ≥ 2 then 2/5 else 0) +
    min (1/5) ((1/20) * sources.length)
  min 1 score

/-- The confidence field of `UnifiedFinancialAgent.query`: take the result's
confidence when present and non-null, else fall back to
`calculate_confidence_score`. -/
def query_confidence (answer : String) (sources : List SourceChunk)
    (knowledge_graph : Option FinKG) (ticker : Option String)
    (enable_verification : Bool) : ℚ :=
  match generate_answer_confidence answer sources knowledge_graph ticker
      enable_verification with
  | some c => c
  | none => calculate_confidence_score answer sources

/-! Association-list lemmas shared by the knowledge-graph proofs. -/

theorem dictFind?_dictUpsert_self {κ ν : Type} [DecidableEq κ] (k : κ) (v : ν) :
    ∀ l : List (κ × ν), dictFind? k (dictUpsert k v l) = some v := by
  intro l
  induction l with
  | nil => simp [dictUpsert, dictFind?]
  | cons h t ih =>
      by_cases hk : h.1 = k
      · simp [dictUpsert, hk, dictFind?]
      · simp [dictUpsert, hk, dictFind?, ih]

theorem dictFind?_dictUpsert_ne {κ ν : Type} [DecidableEq κ] {k k2 : κ} (v : ν)
    (hne : k ≠ k2) : ∀ l : List (κ × ν),
    dictFind? k (dictUpsert k2 v l) = dictFind? k l := by
  intro l
  have hs : k2 ≠ k := Ne.symm hne
  induction l with
  | nil => simp [dictUpsert, dictFind?, hs]
  | cons h t ih =>
      by_cases hk : h.1 = k2
      · simp [dictUpsert, hk, dictFind?, hs]
      · by_cases hk2 : h.1 = k
        · simp [dictUpsert, hk, dictFind?, hk2, hne]
        · simp [dictUpsert, hk, dictFind?, hk2, ih]

theorem dictFind?_eq_none_iff {κ ν : Type} [DecidableEq κ] (k : κ) :
    ∀ l : List (κ × ν), dictFind? k l = none ↔ k ∉ l.map Prod.fst := by
  intro l
  induction l with
  | nil => simp [dictFind?]
  | cons h t ih =>
      by_cases hk : h.1 = k
      · simp [dictFind?, hk]
      · simp [dictFind?, hk, ih, Ne.symm hk]

theorem dictFind?_append_right {κ ν : Type} [DecidableEq κ] (k : κ)
    {l : List (κ × ν)} (h : dictFind? k l = none) (l2 : List (κ × ν)) :
    dictFind? k (l ++ l2) = dictFind? k l2 := by
  induction l with
  | nil => simp
  | cons hd t ih =>
      by_cases hk : hd.1 = k
      · simp [dictFind?, hk] at h
      · simp [dictFind?, hk] at h ⊢
        exact ih h

theorem dictFind?_append_left {κ ν : Type} [DecidableEq κ] (k : κ)
    {l : List (κ × ν)} {v : ν} (h : dictFind? k l = some v) (l2 : List (κ × ν)) :
    dictFind? k (l ++ l2) = some v := by
  induction l with
  | nil => simp [dictFind?] at h
  | cons hd t ih =>
      by_cases hk : hd.1 = k
      · simp [dictFind?, hk] at h ⊢
        exact h
      · simp [dictFind?, hk] at h ⊢
        exact ih h

/-! ## C10 -/

/-- Claim C10: for a ticker that is not a node, `get_peers` raises `KeyError`,
and `get_context_prompt` raises the same error through its unconditional
`get_peers` call even though its company-info section is membership-guarded. -/
theorem get_peers_keyerror (g : FinKG) (ticker : String)
    (h : dictFind? ticker g.nodes = none) :
    get_peers g ticker = .error "KeyError" ∧
    get_context_prompt g ticker = .error "KeyError" := by
  have hp : get_peers g ticker = .error "KeyError" := by
    simp [get_peers, h]
  refine ⟨hp, ?_⟩
  simp only [get_context_prompt, h, hp]

/-- Witness for C10 on the empty graph. -/
theorem get_peers_keyerror_witness :
    get_peers {} "AAPL" = .error "KeyError" ∧
    get_context_prompt {} "AAPL" = .error "KeyError" :=
  get_peers_keyerror {} "AAPL" (by with_unfolding_all decide)

/-! ## C7 -/

/-- Claim C7: every agent returns PASS with penalty 0 when it has nothing of
its category to check — Agent E without extracted numbers, Agent V without
sentence-like claims, Agent L without a knowledge graph, without a ticker
(including an empty one), or without trend claims. -/
theorem agents_vacuous_pass (answer : String) (chunks : List SourceChunk)
    (kg : Option FinKG) (ticker : Option String) :
    (extract_numbers answer = [] →
      (agentE_verify answer chunks).status = "PASS" ∧
      (agentE_verify answer chunks).confidence_penalty = 0) ∧
    (extract_claims answer = [] →
      (agentV_verify answer chunks).status = "PASS" ∧
      (agentV_verify answer chunks).confidence_penalty = 0) ∧
    (kg = none ∨ ticker = none ∨ ticker = some "" →
      (agentL_verify answer kg ticker).status = "PASS" ∧
      (agentL_verify answer kg ticker).confidence_penalty = 0) ∧
    (extract_trend_claims answer = [] →
      (agentL_verify answer kg ticker).status = "PASS" ∧
      (agentL_verify answer kg ticker).confidence_penalty = 0) := by
  refine ⟨?_, ?_, ?_, ?_⟩
  · intro h
    simp [agentE_verify, h]
  · intro h
    simp [agentV_verify, h]
  · intro h
    rcases h with h | h | h
    · subst h
      simp [agentL_verify, verificationL_noData]
    · subst h
      cases kg <;> simp [agentL_verify, verificationL_noData]
    · subst h
      cases kg <;> simp [agentL_verify, verificationL_noData]
  · intro h
    cases kg with
    | none => simp [agentL_verify, verificationL_noData]
    | some kgv =>
        cases ticker with
        | none => simp [agentL_verify, verificationL_noData]
        | some t =>
            by_cases ht : t == ""
            · simp [agentL_verify, ht, verificationL_noData]
            · simp [agentL_verify, ht, h]

/-- Witness for C7 at the empty answer with no store and no ticker. -/
theorem agents_vacuous_pass_witness :
    (agentE_verify "" []).status = "PASS" ∧
    (agentE_verify "" []).confidence_penalty = 0 ∧
    (agentV_verify "" []).status = "PASS" ∧
    (agentL_verify "" none none).status = "PASS" := by
  have h := agents_vacuous_pass "" [] none none
  have he := h.1 (by with_unfolding_all decide)
  have hv := h.2.1 (by with_unfolding_all decide)
  have hl := (h.2.2.1 (Or.inl rfl)).1
  exact ⟨he.1, he.2, hv.1, hl⟩

/-! ## C3 -/

/-- In a sorted list the head is a lower bound. -/
theorem sorted_head?_le {l : List Int} (hs : l.Sorted (fun a b => a ≤ b))
    {y0 : Int} (h0 : l.head? = some y0) : ∀ y ∈ l, y0 ≤ y := by
  cases l with
  | nil => simp
  | cons a t =>
      intro y hy
      cases h0
      rcases List.mem_cons.mp hy with h | h
      · exact h ▸ le_refl _
      · exact (List.sorted_cons.mp hs).1 y h

/-- In a sorted list the last element is an upper bound. -/
theorem sorted_le_getLast? {l : List Int} : l.Sorted (fun a b => a ≤ b) →
    ∀ {y1 : Int}, l.getLast? = some y1 → ∀ y ∈ l, y ≤ y1 := by
  induction l with
  | nil =>
      intro _ y1 h1
      simp at h1
  | cons a t ih =>
      intro hs y1 h1 y hy
      cases t with
      | nil =>
          simp at h1 hy
          omega
      | cons b t2 =>
          rw [List.getLast?_cons_cons] at h1
          have hmem : y1 ∈ b :: t2 := List.mem_of_getLast?_eq_some h1
          rcases List.mem_cons.mp hy with h | h
          · subst h
            exact (List.sorted_cons.mp hs).1 y1 hmem
          · exact ih (List.sorted_cons.mp hs).2 h1 y h

/-- Claim C3: `get_trend` returns `([], [], "unknown")` on fewer than two data
points; otherwise its years are sorted ascending (a permutation of the stored
years), its values are aligned by year lookup, and its label classifies the
percent change `(last-first)/|first|*100` from the earliest to the latest
year (0 when the first value is 0) with the ±5 band; the claim's four example
histories evaluate as stated. -/
theorem get_trend_spec (g : FinKG) (ticker metric_name : String) :
    ((get_metrics g ticker metric_name).length < 2 →
        get_trend g ticker metric_name = ([], [], "unknown")) ∧
    (2 ≤ (get_metrics g ticker metric_name).length →
        (get_trend g ticker metric_name).1.Sorted (fun a b => a ≤ b) ∧
        (get_trend g ticker metric_name).1.Perm
          ((get_metrics g ticker metric_name).map Prod.fst) ∧
        (get_trend g ticker metric_name).2.1 =
          (get_trend g ticker metric_name).1.map
            (fun y => (dictFind? y (get_metrics g ticker metric_name)).getD 0) ∧
        (∃ y0 y1, (get_trend g ticker metric_name).1.head? = some y0 ∧
          (get_trend g ticker metric_name).1.getLast? = some y1 ∧
          (∀ y ∈ (get_metrics g ticker metric_name).map Prod.fst, y0 ≤ y ∧ y ≤ y1) ∧
          (get_trend g ticker metric_name).2.2 =
            (let first := (dictFind? y0 (get_metrics g ticker metric_name)).getD 0
             let last := (dictFind? y1 (get_metrics g ticker metric_name)).getD 0
             let change := if first ≠ 0 then ((last - first) / abs first) * 100 else 0
             if change > 5 then "up"
             else if change < -5 then "down" else "stable"))) ∧
    get_trend { metrics_history :=
        [("T", [("m", [(2020, 100), (2021, 110), (2022, 120)])])] } "T" "m" =
      ([2020, 2021, 2022], [100, 110, 120], "up") ∧
    get_trend { metrics_history := [("T", [("m", [(2020, 100), (2021, 96)])])] }
        "T" "m" = ([2020, 2021], [100, 96], "stable") ∧
    get_trend { metrics_history := [("T", [("m", [(2020, 100), (2021, 80)])])] }
        "T" "m" = ([2020, 2021], [100, 80], "down") ∧
    get_trend { metrics_history := [("T", [("m", [(2020, 100)])])] } "T" "m" =
      ([], [], "unknown") := by
  refine ⟨?_, ?_, ?_, ?_, ?_, ?_⟩
  · intro h
    simp [get_trend, h]
  · intro h2
    set metrics := get_metrics g ticker metric_name with hm
    have hne : ¬ metrics.length < 2 := by omega
    set ys := List.insertionSort (fun a b => a ≤ b) (metrics.map Prod.fst) with hys
    have hsort : ys.Sorted (fun a b => a ≤ b) := List.sorted_insertionSort _ _
    have hperm : ys.Perm (metrics.map Prod.fst) := List.perm_insertionSort _ _
    have hlen : ys.length = metrics.length := by
      rw [hys, List.length_insertionSort, List.length_map]
    have hr : get_trend g ticker metric_name =
        (ys, ys.map (fun y => (dictFind? y metrics).getD 0),
          if (ys.map (fun y => (dictFind? y metrics).getD 0)).length ≥ 2 then
            let first := (ys.map (fun y => (dictFind? y metrics).getD 0)).headD 0
            let last := (ys.map (fun y => (dictFind? y metrics).getD 0)).getLastD 0
            let change_pct := if first ≠ 0 then ((last - first) / abs first) * 100 else 0
            if change_pct > 5 then "up"
            else if change_pct < -5 then "down" else "stable"
          else "unknown") := by
      rw [get_trend]
      rw [if_neg hne]
    have hvlen : (ys.map (fun y => (dictFind? y metrics).getD 0)).length ≥ 2 := by
      rw [List.length_map]; omega
    cases hy : ys with
    | nil =>
        rw [hy] at hlen
        simp at hlen
        omega
    | cons y0 t =>
        have hlast : ∃ y1, (y0 :: t).getLast? = some y1 := by
          cases hl : (y0 :: t).getLast? with
          | none => simp [List.getLast?_eq_none_iff] at hl
          | some v => exact ⟨v, rfl⟩
        obtain ⟨y1, hy1⟩ := hlast
        rw [hy] at hsort hperm hr
        refine ⟨?_, ?_, ?_, y0, y1, ?_, ?_, ?_, ?_⟩
        · rw [hr]; exact hsort
        · rw [hr]; exact hperm
        · rw [hr]
        · rw [hr]; rfl
        · rw [hr]; exact hy1
        · intro y hmem
          have hmem2 : y ∈ y0 :: t := hperm.mem_iff.mpr hmem
          exact ⟨sorted_head?_le hsort rfl y hmem2,
            sorted_le_getLast? hsort hy1 y hmem2⟩
        · rw [hr]
          have hv0 : ((y0 :: t).map (fun y => (dictFind? y metrics).getD 0)).headD 0 =
              (dictFind? y0 metrics).getD 0 := by simp
          have hv1 : ((y0 :: t).map (fun y => (dictFind? y metrics).getD 0)).getLastD 0 =
              (dictFind? y1 metrics).getD 0 := by
            rw [List.getLastD_eq_getLast?, List.getLast?_map, hy1]
            rfl
          rw [hy] at hvlen
          simp only [if_pos hvlen]
          rw [hv0, hv1]
  · with_unfolding_all decide
  · with_unfolding_all decide
  · with_unfolding_all decide
  · with_unfolding_all decide

/-- Witness for C3 on a concrete two-point history. -/
theorem get_trend_spec_witness :
    2 ≤ (get_metrics { metrics_history :=
        [("T", [("m", [(2021, 50), (2020, 100)])])] } "T" "m").length ∧
    (get_trend { metrics_history :=
        [("T", [("m", [(2021, 50), (2020, 100)])])] } "T" "m").1.Sorted
      (fun a b => a ≤ b) := by
  have h := (get_trend_spec { metrics_history :=
      [("T", [("m", [(2021, 50), (2020, 100)])])] } "T" "m").2.1
  have hlen : 2 ≤ (get_metrics { metrics_history :=
      [("T", [("m", [(2021, 50), (2020, 100)])])] } "T" "m").length := by
    with_unfolding_all decide
  exact ⟨hlen, (h hlen).1⟩

/-! ## C1 -/

/-- Agent E returns either PASS with no penalty or FAIL with penalty 0.3. -/
theorem agentE_status_penalty (answer : String) (chunks : List SourceChunk) :
    ((agentE_verify answer chunks).status = "PASS" ∧
      (agentE_verify answer chunks).confidence_penalty = 0) ∨
    ((agentE_verify answer chunks).status = "FAIL" ∧
      (agentE_verify answer chunks).confidence_penalty = 3/10) := by
  unfold agentE_verify
  dsimp only
  split
  · exact Or.inl ⟨rfl, rfl⟩
  · split
    · exact Or.inl ⟨rfl, rfl⟩
    · exact Or.inr ⟨rfl, rfl⟩

/-- Agent V returns either PASS with no penalty or FAIL with penalty 0.25. -/
theorem agentV_status_penalty (answer : String) (chunks : List SourceChunk) :
    ((agentV_verify answer chunks).status = "PASS" ∧
      (agentV_verify answer chunks).confidence_penalty = 0) ∨
    ((agentV_verify answer chunks).status = "FAIL" ∧
      (agentV_verify answer chunks).confidence_penalty = 1/4) := by
  unfold agentV_verify
  dsimp only
  split
  · exact Or.inl ⟨rfl, rfl⟩
  · split
    · exact Or.inl ⟨rfl, rfl⟩
    · exact Or.inr ⟨rfl, rfl⟩

/-- Agent L returns either PASS with no penalty or FAIL with penalty 0.15. -/
theorem agentL_status_penalty (answer : String) (kg : Option FinKG)
    (ticker : Option String) :
    ((agentL_verify answer kg ticker).status = "PASS" ∧
      (agentL_verify answer kg ticker).confidence_penalty = 0) ∨
    ((agentL_verify answer kg ticker).status = "FAIL" ∧
      (agentL_verify answer kg ticker).confidence_penalty = 3/20) := by
  unfold agentL_verify
  cases kg with
  | none => exact Or.inl ⟨rfl, rfl⟩
  | some kgv =>
      cases ticker with
      | none => exact Or.inl ⟨rfl, rfl⟩
      | some t =>
          dsimp only
          split
          · exact Or.inl ⟨rfl, rfl⟩
          · split
            · exact Or.inl ⟨rfl, rfl⟩
            · split
              · exact Or.inl ⟨rfl, rfl⟩
              · exact Or.inr ⟨rfl, rfl⟩

/-- Claim C1: `verify_answer` computes `all_pass` as the conjunction of the
three agents' PASS statuses, a confidence adjustment equal to minus the sum
of their penalties, and a final confidence equal to
`clamp((0.95 if all_pass else 0.60) - total_penalty, 0, 1)`; in particular
all three PASS gives 0.95, E failing alone gives 0.30, and all three failing
clamps to 0. -/
theorem verify_answer_aggregate (answer : String) (chunks : List SourceChunk)
    (kg : Option FinKG) (ticker : Option String) :
    ((verify_answer answer chunks kg ticker).all_pass = true ↔
      (agentE_verify answer chunks).status = "PASS" ∧
      (agentV_verify answer chunks).status = "PASS" ∧
      (agentL_verify answer kg ticker).status = "PASS") ∧
    (verify_answer answer chunks kg ticker).confidence_adjustment =
      -((agentE_verify answer chunks).confidence_penalty +
        (agentV_verify answer chunks).confidence_penalty +
        (agentL_verify answer kg ticker).confidence_penalty) ∧
    (verify_answer answer chunks kg ticker).final_confidence_score =
      max 0 (min 1
        ((if (verify_answer answer chunks kg ticker).all_pass then (19 : ℚ)/20 else 3/5) -
          ((agentE_verify answer chunks).confidence_penalty +
           (agentV_verify answer chunks).confidence_penalty +
           (agentL_verify answer kg ticker).confidence_penalty))) ∧
    ((agentE_verify answer chunks).status = "PASS" ∧
      (agentV_verify answer chunks).status = "PASS" ∧
      (agentL_verify answer kg ticker).status = "PASS" →
      (verify_answer answer chunks kg ticker).final_confidence_score = 19/20) ∧
    ((agentE_verify answer chunks).status = "FAIL" ∧
      (agentV_verify answer chunks).status = "PASS" ∧
      (agentL_verify answer kg ticker).status = "PASS" →
      (verify_answer answer chunks kg ticker).final_confidence_score = 3/10) ∧
    ((agentE_verify answer chunks).status = "FAIL" ∧
      (agentV_verify answer chunks).status = "FAIL" ∧
      (agentL_verify answer kg ticker).status = "FAIL" →
      (verify_answer answer chunks kg ticker).final_confidence_score = 0) := by
  have hE := agentE_status_penalty answer chunks
  have hV := agentV_status_penalty answer chunks
  have hL := agentL_status_penalty answer kg ticker
  have hiff : (verify_answer answer chunks kg ticker).all_pass = true ↔
      (agentE_verify answer chunks).status = "PASS" ∧
      (agentV_verify answer chunks).status = "PASS" ∧
      (agentL_verify answer kg ticker).status = "PASS" := by
    simp [verify_answer, Bool.and_eq_true, beq_iff_eq, and_assoc]
  have hfinal : (verify_answer answer chunks kg ticker).final_confidence_score =
      max 0 (min 1
        ((if (verify_answer answer chunks kg ticker).all_pass then (19 : ℚ)/20 else 3/5) -
          ((agentE_verify answer chunks).confidence_penalty +
           (agentV_verify answer chunks).confidence_penalty +
           (agentL_verify answer kg ticker).confidence_penalty))) := by
    simp [verify_answer]
    ring_nf
  refine ⟨hiff, ?_, hfinal, ?_, ?_, ?_⟩
  · simp [verify_answer]
    ring
  · rintro ⟨he, hv, hl⟩
    have hpe : (agentE_verify answer chunks).confidence_penalty = 0 :=
      hE.elim (fun x => x.2) (fun x => absurd (x.1.symm.trans he) (by decide))
    have hpv : (agentV_verify answer chunks).confidence_penalty = 0 :=
      hV.elim (fun x => x.2) (fun x => absurd (x.1.symm.trans hv) (by decide))
    have hpl : (agentL_verify answer kg ticker).confidence_penalty = 0 :=
      hL.elim (fun x => x.2) (fun x => absurd (x.1.symm.trans hl) (by decide))
    have hap : (verify_answer answer chunks kg ticker).all_pass = true :=
      hiff.mpr ⟨he, hv, hl⟩
    rw [hfinal, hap, hpe, hpv, hpl]
    norm_num
  · rintro ⟨he, hv, hl⟩
    have hpe : (agentE_verify answer chunks).confidence_penalty = 3/10 :=
      hE.elim (fun x => absurd (x.1.symm.trans he) (by decide)) (fun x => x.2)
    have hpv : (agentV_verify answer chunks).confidence_penalty = 0 :=
      hV.elim (fun x => x.2) (fun x => absurd (x.1.symm.trans hv) (by decide))
    have hpl : (agentL_verify answer kg ticker).confidence_penalty = 0 :=
      hL.elim (fun x => x.2) (fun x => absurd (x.1.symm.trans hl) (by decide))
    have hap : (verify_answer answer chunks kg ticker).all_pass = false := by
      cases hb : (verify_answer answer chunks kg ticker).all_pass with
      | false => rfl
      | true =>
          have := (hiff.mp hb).1
          exact absurd (he.symm.trans this) (by decide)
    rw [hfinal, hap, hpe, hpv, hpl]
    norm_num
  · rintro ⟨he, hv, hl⟩
    have hpe : (agentE_verify answer chunks).confidence_penalty = 3/10 :=
      hE.elim (fun x => absurd (x.1.symm.trans he) (by decide)) (fun x => x.2)
    have hpv : (agentV_verify answer chunks).confidence_penalty = 1/4 :=
      hV.elim (fun x => absurd (x.1.symm.trans hv) (by decide)) (fun x => x.2)
    have hpl : (agentL_verify answer kg ticker).confidence_penalty = 3/20 :=
      hL.elim (fun x => absurd (x.1.symm.trans hl) (by decide)) (fun x => x.2)
    have hap : (verify_answer answer chunks kg ticker).all_pass = false := by
      cases hb : (verify_answer answer chunks kg ticker).all_pass with
      | false => rfl
      | true =>
          have := (hiff.mp hb).1
          exact absurd (he.symm.trans this) (by decide)
    rw [hfinal, hap, hpe, hpv, hpl]
    norm_num

/-- A two-point rising revenue history used by the C1 and C2 witnesses. -/
def upStore : FinKG := { metrics_history := [("T", [("revenue", [(2020, 1), (2021, 2)])])] }

/-- Witness for C1: all three agents pass on the empty answer (final 0.95),
E fails alone on `"ab 99"` with no sources (final 0.30), and all three fail
on `"revenue fell 99"` against a rising store (final 0). -/
theorem verify_answer_aggregate_witness :
    (verify_answer "" [] none none).final_confidence_score = 19/20 ∧
    (verify_answer "ab 99" [] none none).final_confidence_score = 3/10 ∧
    (verify_answer "revenue fell 99" [] (some upStore) (some "T")).final_confidence_score = 0 := by
  refine ⟨?_, ?_, ?_⟩
  · exact (verify_answer_aggregate "" [] none none).2.2.2.1
      ⟨by with_unfolding_all decide, by with_unfolding_all decide,
       by with_unfolding_all decide⟩
  · exact (verify_answer_aggregate "ab 99" [] none none).2.2.2.2.1
      ⟨by with_unfolding_all decide, by with_unfolding_all decide,
       by with_unfolding_all decide⟩
  · exact (verify_answer_aggregate "revenue fell 99" [] (some upStore) (some "T")).2.2.2.2.2
      ⟨by with_unfolding_all decide, by with_unfolding_all decide,
       by with_unfolding_all decide⟩

/-! ## C2 -/

/-- `get_trend` returns an empty year list exactly when there are fewer than
two data points. -/
theorem get_trend_years_empty_iff (g : FinKG) (ticker metric_name : String) :
    (get_trend g ticker metric_name).1 = [] ↔
      (get_metrics g ticker metric_name).length < 2 := by
  unfold get_trend
  dsimp only
  split
  · rename_i h
    simp [h]
  · rename_i h
    constructor
    · intro he
      have hl := congrArg List.length he
      rw [List.length_insertionSort, List.length_map] at hl
      simp only [List.length_nil] at hl
      omega
    · intro hlt
      exact absurd hlt h

/-- The three-way endpoint classification never yields `"unknown"`. -/
theorem ite_trend_ne_unknown (c1 c2 : Prop) [Decidable c1] [Decidable c2] :
    (if c1 then "up" else if c2 then "down" else "stable") ≠ "unknown" := by
  split
  · decide
  · split <;> decide

/-- With at least two data points the trend label is never `"unknown"`. -/
theorem get_trend_label_ne_unknown (g : FinKG) (ticker metric_name : String)
    (h2 : 2 ≤ (get_metrics g ticker metric_name).length) :
    (get_trend g ticker metric_name).2.2 ≠ "unknown" := by
  unfold get_trend
  dsimp only
  have hne : ¬ ((get_metrics g ticker metric_name).length < 2) := by omega
  rw [if_neg hne]
  dsimp only
  have hvl : (List.map (fun y => (dictFind? y (get_metrics g ticker metric_name)).getD 0)
      (List.insertionSort (fun a b => a ≤ b)
        (List.map Prod.fst (get_metrics g ticker metric_name)))).length ≥ 2 := by
    rw [List.length_map, List.length_insertionSort, List.length_map]
    omega
  rw [if_pos hvl]
  exact ite_trend_ne_unknown _ _

/-- An `if` between `some` and `none` is `some` exactly on the condition. -/
theorem isSome_ite_some_none {α : Type} (c : Prop) [Decidable c] (a : α) :
    (if c then some a else none).isSome = true ↔ c := by
  by_cases h : c <;> simp [h]

/-- Claim C2: for an answer with trend claims, a knowledge store and a
nonempty ticker, Agent L records an anomaly for a claimed
`(metric, direction)` pair exactly when the store has at least two data
points for the lowercased metric (trend label not `"unknown"`) and the
store's label differs from the claimed direction; the verdict is PASS exactly
when no claimed pair yields an anomaly, otherwise FAIL with the fixed penalty
0.15 independent of the anomaly count. -/
theorem agentL_trend_check (answer : String) (kg : FinKG) (ticker : String)
    (ht : ticker ≠ "") (hc : extract_trend_claims answer ≠ []) :
    (∀ p ∈ extract_trend_claims answer,
      ((anomalyFor kg ticker p).isSome = true ↔
        (2 ≤ (get_metrics kg ticker (String.mk (listLower p.1.data))).length ∧
         (get_trend kg ticker (String.mk (listLower p.1.data))).2.2 ≠ "unknown" ∧
         (get_trend kg ticker (String.mk (listLower p.1.data))).2.2 ≠ p.2))) ∧
    ((agentL_verify answer (some kg) (some ticker)).status = "PASS" ↔
      ∀ p ∈ extract_trend_claims answer, anomalyFor kg ticker p = none) ∧
    ((agentL_verify answer (some kg) (some ticker)).status ≠ "PASS" →
      (agentL_verify answer (some kg) (some ticker)).status = "FAIL" ∧
      (agentL_verify answer (some kg) (some ticker)).confidence_penalty = 3/20) := by
  have htb : (ticker == "") = false := by simp [ht]
  have hcb : (extract_trend_claims answer).isEmpty = false := by
    cases hx : extract_trend_claims answer with
    | nil => exact absurd hx hc
    | cons a t => rfl
  refine ⟨?_, ?_⟩
  · intro p _
    unfold anomalyFor
    dsimp only
    rw [isSome_ite_some_none]
    simp only [Bool.and_eq_true, Bool.not_eq_true', beq_eq_false_iff_ne,
      List.isEmpty_eq_false]
    constructor
    · rintro ⟨⟨h1, h2a⟩, h3⟩
      refine ⟨?_, h2a, h3⟩
      have hiff := get_trend_years_empty_iff kg ticker (String.mk (listLower p.1.data))
      by_contra hlt
      exact h1 (hiff.mpr (by omega))
    · rintro ⟨h1, h2a, h3⟩
      refine ⟨⟨?_, h2a⟩, h3⟩
      intro he
      have hlt := (get_trend_years_empty_iff kg ticker
        (String.mk (listLower p.1.data))).mp he
      omega
  rw [agentL_verify]
  dsimp only
  rw [if_neg (by simp [htb])]
  rw [if_neg (by simp [hcb])]
  constructor
  · split
    · rename_i hemp
      rw [List.isEmpty_iff, List.filterMap_eq_nil_iff] at hemp
      constructor
      · intro _ p hp
        exact hemp p hp
      · intro _
        rfl
    · rename_i hemp
      have hne : List.filterMap (anomalyFor kg ticker) (extract_trend_claims answer) ≠ [] := by
        intro h0
        rw [List.isEmpty_iff] at hemp
        exact hemp h0
      constructor
      · intro hs
        exact absurd hs (by simp)
      · intro hall
        exact absurd (List.filterMap_eq_nil_iff.mpr hall) hne
  · split
    · intro hs
      exact absurd rfl hs
    · intro _
      exact ⟨rfl, rfl⟩

/-- Witness for C2: `"revenue fell"` claims a decline while the store's
revenue trend is `"up"`, so the pair is an anomaly and Agent L fails with
penalty 0.15. -/
theorem agentL_trend_check_witness :
    (anomalyFor upStore "T" ("revenue", "decline")).isSome = true ∧
    (agentL_verify "revenue fell" (some upStore) (some "T")).status = "FAIL" ∧
    (agentL_verify "revenue fell" (some upStore) (some "T")).confidence_penalty = 3/20 := by
  have h := agentL_trend_check "revenue fell" upStore "T"
    (by with_unfolding_all decide) (by with_unfolding_all decide)
  have hmem : ("revenue", "decline") ∈ extract_trend_claims "revenue fell" := by
    with_unfolding_all decide
  have ha := (h.1 ("revenue", "decline") hmem).mpr
    ⟨by with_unfolding_all decide, by with_unfolding_all decide,
     by with_unfolding_all decide⟩
  have hnp : ¬ (agentL_verify "revenue fell" (some upStore) (some "T")).status = "PASS" := by
    intro hs
    have := h.2.1.mp hs ("revenue", "decline") hmem
    rw [this] at ha
    exact absurd ha (by simp)
  exact ⟨ha, (h.2.2 hnp).1, (h.2.2 hnp).2⟩

/-! ## C6 -/

/-- Claim C6 (code bug): with verification enabled the returned confidence is
the framework's final score, but with verification disabled it is the
constant `0.8` that `generate_answer` always stores — the heuristic fallback
in `query` is dead code because the result never lacks a confidence value.
On the failing input (no digits, no sources) the heuristic would give 0. -/
theorem query_confidence_code_bug :
    (∀ (answer : String) (sources : List SourceChunk) (kg : Option FinKG)
      (ticker : Option String),
      query_confidence answer sources kg ticker true =
        (verify_answer answer sources kg ticker).final_confidence_score ∧
      query_confidence answer sources kg ticker false = 4/5) ∧
    query_confidence "No figures available today" [] none none false = 4/5 ∧
    calculate_confidence_score "No figures available today" [] = 0 := by
  refine ⟨?_, rfl, ?_⟩
  · intro a s kg t
    exact ⟨rfl, rfl⟩
  · with_unfolding_all decide

/-! ## C5 -/

/-- Counterexample for C5: the mock search path of
`search_similar_chunks` (i) raises `IndexError` on an empty index instead of
returning an empty result, (ii) returns the fallback entry with score 0.8
even when the threshold is 0.9, and (iii) returns passing entries in index
order, not sorted by descending score. -/
theorem search_similar_chunks_counterexample :
    search_similar_chunks_mock [] (fun _ => 1/2) 4 (3/5) = none ∧
    search_similar_chunks_mock ["m0"] (fun _ => 1/2) 4 (9/10) = some [("m0", 4/5)] ∧
    ((4 : ℚ)/5 < 9/10) ∧
    search_similar_chunks_mock ["m0", "m1"]
      (fun i => if i = 0 then 7/10 else 9/10) 4 (3/5) =
      some [("m0", 7/10), ("m1", 9/10)] ∧
    ((7 : ℚ)/10 < 9/10) := by
  refine ⟨?_, ?_, ?_, ?_, ?_⟩ <;> with_unfolding_all decide

/-- Folding the real-path step over `none` stays `none`. -/
theorem search_real_foldl_none (metadata : List String) (threshold : ℚ) :
    ∀ l : List (ℚ × Int), l.foldl (fun acc di =>
      match acc with
      | none => none
      | some results =>
          if di.1 < threshold then some results
          else if di.2 < (metadata.length : Int) then
            match pyIndex metadata di.2 with
            | some m => some (results ++ [(m, di.1)])
            | none => none
          else some (results ++ [("", di.1)])) none = none := by
  intro l
  induction l with
  | nil => rfl
  | cons d t ih => exact ih

/-- Invariant of the real-path fold: entries at or above the threshold, at
most one appended per FAISS candidate. -/
theorem search_real_aux (metadata : List String) (threshold : ℚ) :
    ∀ (l : List (ℚ × Int)) (acc : List (String × ℚ)),
      (∀ e ∈ acc, threshold ≤ e.2) →
      ∀ r, l.foldl (fun acc2 di =>
        match acc2 with
        | none => none
        | some results =>
            if di.1 < threshold then some results
            else if di.2 < (metadata.length : Int) then
              match pyIndex metadata di.2 with
              | some m => some (results ++ [(m, di.1)])
              | none => none
            else some (results ++ [("", di.1)])) (some acc) = some r →
        r.length ≤ acc.length + l.length ∧ ∀ e ∈ r, threshold ≤ e.2 := by
  intro l
  induction l with
  | nil =>
      intro acc hacc r hr
      simp only [List.foldl_nil, Option.some.injEq] at hr
      subst hr
      exact ⟨by simp, hacc⟩
  | cons d t ih =>
      intro acc hacc r hr
      simp only [List.foldl_cons] at hr
      by_cases h1 : d.1 < threshold
      · rw [if_pos h1] at hr
        have := ih acc hacc r hr
        refine ⟨?_, this.2⟩
        have hl := this.1
        simp only [List.length_cons]
        omega
      · rw [if_neg h1] at hr
        by_cases h2 : d.2 < (metadata.length : Int)
        · rw [if_pos h2] at hr
          cases hp : pyIndex metadata d.2 with
          | none =>
              rw [hp] at hr
              rw [search_real_foldl_none] at hr
              exact absurd hr (by simp)
          | some m =>
              rw [hp] at hr
              have hacc2 : ∀ e ∈ acc ++ [(m, d.1)], threshold ≤ e.2 := by
                intro e he
                rcases List.mem_append.mp he with h | h
                · exact hacc e h
                · simp at h
                  rw [h]
                  exact le_of_not_lt h1
              have := ih (acc ++ [(m, d.1)]) hacc2 r hr
              refine ⟨?_, this.2⟩
              have hl := this.1
              simp only [List.length_append, List.length_cons, List.length_nil] at hl
              simp only [List.length_cons]
              omega
        · rw [if_neg h2] at hr
          have hacc2 : ∀ e ∈ acc ++ [("", d.1)], threshold ≤ e.2 := by
            intro e he
            rcases List.mem_append.mp he with h | h
            · exact hacc e h
            · simp at h
              rw [h]
              exact le_of_not_lt h1
          have := ih (acc ++ [("", d.1)]) hacc2 r hr
          refine ⟨?_, this.2⟩
          have hl := this.1
          simp only [List.length_append, List.length_cons, List.length_nil] at hl
          simp only [List.length_cons]
          omega

/-- Claim C5, amended: in the mock path the result (when defined) has at most
`max k 1` entries and is either the fixed fallback `[(metadata[0], 0.8)]` or
consists of entries at or above the threshold; it is undefined
(`IndexError`) only on an empty index.  In the real path every returned
entry's score is at least the threshold and there are at most as many
entries as FAISS candidates. -/
theorem search_similar_chunks_amended (metadata : List String) (rand : Nat → ℚ)
    (k : Nat) (threshold : ℚ) (faiss_out : List (ℚ × Int)) :
    (∀ r, search_similar_chunks_mock metadata rand k threshold = some r →
      r.length ≤ max k 1 ∧
      (r = [(metadata.headD "", 4/5)] ∨ ∀ e ∈ r, threshold ≤ e.2)) ∧
    (search_similar_chunks_mock metadata rand k threshold = none →
      metadata = []) ∧
    (∀ r, search_similar_chunks_real metadata faiss_out threshold = some r →
      r.length ≤ faiss_out.length ∧ ∀ e ∈ r, threshold ≤ e.2) := by
  refine ⟨?_, ?_, ?_⟩
  · intro r hr
    unfold search_similar_chunks_mock at hr
    dsimp only at hr
    split at hr
    · rename_i hne
      rw [Option.some.injEq] at hr
      subst hr
      constructor
      · calc ((metadata.take k).enum.filterMap _).length
            ≤ (metadata.take k).enum.length := List.length_filterMap_le _ _
          _ = (metadata.take k).length := List.enum_length
          _ ≤ k := by rw [List.length_take]; omega
          _ ≤ max k 1 := le_max_left _ _
      · refine Or.inr ?_
        intro e he
        rw [List.mem_filterMap] at he
        obtain ⟨mi, _, hmi⟩ := he
        by_cases hge : rand mi.1 ≥ threshold
        · rw [if_pos hge] at hmi
          rw [Option.some.injEq] at hmi
          subst hmi
          exact hge
        · rw [if_neg hge] at hmi
          exact absurd hmi (by simp)
    · cases metadata with
      | nil => exact absurd hr (by simp)
      | cons m t =>
          rw [Option.some.injEq] at hr
          subst hr
          exact ⟨by simp [Nat.le_max_right], Or.inl rfl⟩
  · intro hr
    unfold search_similar_chunks_mock at hr
    dsimp only at hr
    split at hr
    · exact absurd hr (by simp)
    · cases metadata with
      | nil => rfl
      | cons m t => exact absurd hr (by simp)
  · intro r hr
    unfold search_similar_chunks_real at hr
    have := search_real_aux metadata threshold faiss_out [] (by simp) r hr
    simpa using this

/-- Witness for C5's amended theorem at concrete inputs. -/
theorem search_similar_chunks_amended_witness :
    ([("a", (9 : ℚ)/10)] : List (String × ℚ)).length ≤ max 2 1 ∧
    (∀ e ∈ ([("a", (9 : ℚ)/10)] : List (String × ℚ)), (1 : ℚ)/2 ≤ e.2) ∧
    (∀ e ∈ ([("a", (7 : ℚ)/10)] : List (String × ℚ)), (1 : ℚ)/2 ≤ e.2) := by
  have h := search_similar_chunks_amended ["a"] (fun _ => 9/10) 2 (1/2) [(7/10, 0)]
  have h1 := h.1 [("a", 9/10)] (by with_unfolding_all decide)
  have h3 := h.2.2 [("a", 7/10)] (by with_unfolding_all decide)
  refine ⟨h1.1, ?_, h3.2⟩
  rcases h1.2 with h2 | h2
  · intro e he
    rw [h2] at he
    simp only [List.mem_singleton] at he
    subst he
    norm_num
  · exact h2

/-! ## C4 -/

/-- The example input of the specification for `extract_metrics_from_text`. -/
def c4input : String :=
  "total revenue of $245.1 Billion... Net income was $88.2 Billion... margin improved to 36%"

/-- The pattern `moneyRe "total" "revenue" "B" "Billion"` has no match in the C4 input. -/
theorem c4_rev_b : reSearch (moneyRe "total" "revenue" "B" "Billion") c4input.data = none :=
  reSearch_eq_of_searchStep_inl (moneyRe "total" "revenue" "B" "Billion") 95 c4input.data none
    (by with_unfolding_all decide)

/-- The pattern `moneyRe "total" "revenue" "M" "Million"` has no match in the C4 input. -/
theorem c4_rev_m : reSearch (moneyRe "total" "revenue" "M" "Million") c4input.data = none :=
  reSearch_eq_of_searchStep_inl (moneyRe "total" "revenue" "M" "Million") 95 c4input.data none
    (by with_unfolding_all decide)

/-- The pattern `moneyRe "net" "sales" "B" "Billion"` has no match in the C4 input. -/
theorem c4_sales_b : reSearch (moneyRe "net" "sales" "B" "Billion") c4input.data = none :=
  reSearch_eq_of_searchStep_inl (moneyRe "net" "sales" "B" "Billion") 95 c4input.data none
    (by with_unfolding_all decide)

/-- The pattern `moneyRe "net" "sales" "M" "Million"` has no match in the C4 input. -/
theorem c4_sales_m : reSearch (moneyRe "net" "sales" "M" "Million") c4input.data = none :=
  reSearch_eq_of_searchStep_inl (moneyRe "net" "sales" "M" "Million") 95 c4input.data none
    (by with_unfolding_all decide)

/-- The pattern `moneyRe "net" "income" "B" "Billion"` has no match in the C4 input. -/
theorem c4_ni_b : reSearch (moneyRe "net" "income" "B" "Billion") c4input.data = none :=
  reSearch_eq_of_searchStep_inl (moneyRe "net" "income" "B" "Billion") 95 c4input.data none
    (by with_unfolding_all decide)

/-- The pattern `moneyRe "net" "income" "M" "Million"` has no match in the C4 input. -/
theorem c4_ni_m : reSearch (moneyRe "net" "income" "M" "Million") c4input.data = none :=
  reSearch_eq_of_searchStep_inl (moneyRe "net" "income" "M" "Million") 95 c4input.data none
    (by with_unfolding_all decide)

/-- The pattern `moneyRe "net" "profit" "B" "Billion"` has no match in the C4 input. -/
theorem c4_profit_b : reSearch (moneyRe "net" "profit" "B" "Billion") c4input.data = none :=
  reSearch_eq_of_searchStep_inl (moneyRe "net" "profit" "B" "Billion") 95 c4input.data none
    (by with_unfolding_all decide)

/-- The pattern `moneyRe "net" "profit" "M" "Million"` has no match in the C4 input. -/
theorem c4_profit_m : reSearch (moneyRe "net" "profit" "M" "Million") c4input.data = none :=
  reSearch_eq_of_searchStep_inl (moneyRe "net" "profit" "M" "Million") 95 c4input.data none
    (by with_unfolding_all decide)

/-- The pattern `marginRe "net"` has no match in the C4 input. -/
theorem c4_margin_net : reSearch (marginRe "net") c4input.data = none :=
  reSearch_eq_of_searchStep_inl (marginRe "net") 95 c4input.data none
    (by with_unfolding_all decide)

/-- The pattern `marginRe "operating"` has no match in the C4 input. -/
theorem c4_margin_op : reSearch (marginRe "operating") c4input.data = none :=
  reSearch_eq_of_searchStep_inl (marginRe "operating") 95 c4input.data none
    (by with_unfolding_all decide)

/-- The pattern `epsRe` has no match in the C4 input. -/
theorem c4_eps : reSearch (epsRe) c4input.data = none :=
  reSearch_eq_of_searchStep_inl (epsRe) 95 c4input.data none
    (by with_unfolding_all decide)

/-- Claim C4 (code bug): on the specification's example input,
`extract_metrics_from_text` extracts nothing at all — every pattern requires
the number to follow the metric word after only colons and whitespace, so the
phrasings "revenue of", "income was" and "margin improved to" never match —
and consequently upserts nothing into the graph.  The repository's own test
`test_knowledge_graph_metric_extraction` asserts extraction from the same
phrasing and therefore fails against the code. -/
theorem extract_metrics_c4_failing_input :
    extract_metrics_from_text {} c4input.data "MSFT" 2024 = ([], ({} : FinKG)) := by
  unfold extract_metrics_from_text
  simp only [rev_patterns, ni_patterns, margin_patterns, familySearch,
    c4_rev_b, c4_rev_m, c4_sales_b, c4_sales_m, c4_ni_b, c4_ni_m,
    c4_profit_b, c4_profit_m, c4_margin_net, c4_margin_op, c4_eps,
    List.append_nil, List.nil_append, List.foldl_nil]

/-! ## C8 -/

def valueOfNodes (l : List (String × Attrs)) (key : String) : Option ℚ :=
  match dictFind? key l with
  | some attrs =>
      match dictFind? "value" attrs with
      | some (.q v) => some v
      | _ => none
  | none => none

def nodeMetricValue (g : FinKG) (key : String) : Option ℚ :=
  valueOfNodes g.nodes key

def historyOfList (mh : List (String × List (String × List (Int × ℚ))))
    (ticker metric_name : String) (year : Int) : Option ℚ :=
  match dictFind? ticker mh with
  | none => none
  | some tm =>
      match dictFind? metric_name tm with
      | none => none
      | some ym => dictFind? year ym

def historyValue (g : FinKG) (ticker metric_name : String) (year : Int) : Option ℚ :=
  historyOfList g.metrics_history ticker metric_name year

/-- Counterexample for C8: the composite node key concatenates ticker,
metric and year with underscores, so two different `(ticker, metric, year)`
triples can share one key; writing both then leaves the graph node holding
one triple's value while the history index holds the other's, so the graph
and the index disagree. -/
theorem add_metric_node_counterexample :
    metricKey "a" "b_c" 2020 = metricKey "a_b" "c" 2020 ∧
    nodeMetricValue (add_metric_node (add_metric_node {} "a" "b_c" 1 2020) "a_b" "c" 2 2020)
      (metricKey "a" "b_c" 2020) = some 2 ∧
    historyValue (add_metric_node (add_metric_node {} "a" "b_c" 1 2020) "a_b" "c" 2 2020)
      "a" "b_c" 2020 = some 1 := by
  refine ⟨?_, ?_, ?_⟩ <;> with_unfolding_all decide

/-- Upserting a present key leaves the key list unchanged. -/
theorem map_fst_dictUpsert_present {κ ν : Type} [DecidableEq κ] (k : κ) (v : ν) :
    ∀ l : List (κ × ν), ¬ dictFind? k l = none →
      (dictUpsert k v l).map Prod.fst = l.map Prod.fst := by
  intro l
  induction l with
  | nil => simp [dictFind?]
  | cons h t ih =>
      intro hp
      by_cases hk : h.1 = k
      · simp [dictUpsert, hk]
      · simp only [dictFind?, if_neg hk] at hp
        simp only [dictUpsert, if_neg hk, List.map_cons, ih hp]

/-- Upserting an absent key appends it to the key list. -/
theorem map_fst_dictUpsert_absent {κ ν : Type} [DecidableEq κ] (k : κ) (v : ν) :
    ∀ l : List (κ × ν), dictFind? k l = none →
      (dictUpsert k v l).map Prod.fst = l.map Prod.fst ++ [k] := by
  intro l
  induction l with
  | nil => intro _; simp [dictUpsert]
  | cons h t ih =>
      intro hp
      by_cases hk : h.1 = k
      · simp only [dictFind?, if_pos hk] at hp
        exact absurd hp (by simp)
      · simp only [dictFind?, if_neg hk] at hp
        simp only [dictUpsert, if_neg hk, List.map_cons, ih hp, List.cons_append]

/-- Upserts preserve key distinctness. -/
theorem nodup_dictUpsert {κ ν : Type} [DecidableEq κ] (k : κ) (v : ν)
    (l : List (κ × ν)) (h : (l.map Prod.fst).Nodup) :
    ((dictUpsert k v l).map Prod.fst).Nodup := by
  cases hf : dictFind? k l with
  | none =>
      rw [map_fst_dictUpsert_absent k v l hf]
      rw [List.nodup_append]
      refine ⟨h, List.nodup_singleton k, ?_⟩
      intro a ha hb
      simp at hb
      subst hb
      exact absurd hf (by rw [dictFind?_eq_none_iff]; simp [ha])
  | some w =>
      rw [map_fst_dictUpsert_present k v l (by simp [hf])]
      exact h

/-- Under distinct keys, a present key occurs in exactly one entry. -/
theorem countKey_eq_one {κ ν : Type} [DecidableEq κ] :
    ∀ (l : List (κ × ν)) (k : κ) (v : ν), (l.map Prod.fst).Nodup →
      dictFind? k l = some v →
      (l.filter (fun p => decide (p.1 = k))).length = 1 := by
  intro l
  induction l with
  | nil => intro k v _ hf; simp [dictFind?] at hf
  | cons h t ih =>
      intro k v hnd hf
      by_cases hk : h.1 = k
      · have hnot : k ∉ t.map Prod.fst := by
          rw [List.map_cons, List.nodup_cons] at hnd
          rw [← hk]
          exact hnd.1
        have hfe : t.filter (fun p => decide (p.1 = k)) = [] := by
          rw [List.filter_eq_nil_iff]
          intro p hp
          simp only [decide_eq_true_eq]
          intro he
          exact hnot (he ▸ List.mem_map_of_mem Prod.fst hp)
        simp [List.filter_cons, hk, hfe]
      · simp only [dictFind?, if_neg hk] at hf
        rw [List.map_cons, List.nodup_cons] at hnd
        simp only [List.filter_cons, decide_eq_true_eq, hk, if_false]
        exact ih k v hnd.2 hf

/-- A successful lookup comes from a list entry. -/
theorem dictFind?_mem {κ ν : Type} [DecidableEq κ] :
    ∀ {l : List (κ × ν)} {k : κ} {v : ν}, dictFind? k l = some v → (k, v) ∈ l := by
  intro l
  induction l with
  | nil => intro k v h; simp [dictFind?] at h
  | cons h t ih =>
      intro k v hf
      by_cases hk : h.1 = k
      · simp only [dictFind?, if_pos hk] at hf
        cases hf
        have : (k, h.2) = h := by
          rw [← hk]
        rw [this]
        exact List.mem_cons_self h t
      · simp only [dictFind?, if_neg hk] at hf
        exact List.mem_cons_of_mem _ (ih hf)

/-- Lookup through an appended singleton with a different key. -/
theorem dictFind?_append_single_ne {κ ν : Type} [DecidableEq κ] {k k0 : κ}
    (hne : k ≠ k0) (l : List (κ × ν)) (v : ν) :
    dictFind? k (l ++ [(k0, v)]) = dictFind? k l := by
  cases hf : dictFind? k l with
  | some w => exact dictFind?_append_left k hf _
  | none =>
      rw [dictFind?_append_right k hf]
      simp [dictFind?, Ne.symm hne]

/-- Lookup of another key is unchanged by `add_node`. -/
theorem dictFind?_kgAddNode_ne (g : FinKG) (k0 : String) (attrs : Attrs)
    {k : String} (h : k ≠ k0) :
    dictFind? k (kgAddNode g k0 attrs).nodes = dictFind? k g.nodes := by
  unfold kgAddNode
  cases hf : dictFind? k0 g.nodes with
  | some old =>
      dsimp only
      exact dictFind?_dictUpsert_ne _ h _
  | none =>
      dsimp only
      exact dictFind?_append_single_ne h _ _

/-- Lookup of the added key after `add_node`. -/
theorem dictFind?_kgAddNode_self (g : FinKG) (k0 : String) (attrs : Attrs) :
    dictFind? k0 (kgAddNode g k0 attrs).nodes =
      some (match dictFind? k0 g.nodes with
            | some old => attrsUpdate old attrs
            | none => attrs) := by
  unfold kgAddNode
  cases hf : dictFind? k0 g.nodes with
  | some old =>
      dsimp only
      exact dictFind?_dictUpsert_self _ _ _
  | none =>
      dsimp only
      rw [dictFind?_append_right k0 hf]
      simp [dictFind?]

/-- Appending a bare node changes no recorded metric value. -/
theorem valueEq_append_bare (l : List (String × Attrs)) (u k : String) :
    valueOfNodes (l ++ [(u, ([] : Attrs))]) k = valueOfNodes l k := by
  unfold valueOfNodes
  by_cases hk : k = u
  · subst hk
    cases hf : dictFind? k l with
    | some w => rw [dictFind?_append_left k hf]
    | none =>
        rw [dictFind?_append_right k hf]
        simp [dictFind?]
  · rw [dictFind?_append_single_ne hk l []]

/-- The nodes of `add_edge` with a present target: unchanged, or with one bare
source node appended. -/
theorem kgAddEdge_nodes (g : FinKG) (u vtx : String) (attrs : Attrs)
    (hv : ¬ dictFind? vtx g.nodes = none) :
    (kgAddEdge g u vtx attrs).nodes = g.nodes ∨
    (kgAddEdge g u vtx attrs).nodes = g.nodes ++ [(u, ([] : Attrs))] := by
  obtain ⟨w, hw⟩ : ∃ w, dictFind? vtx g.nodes = some w := by
    cases hx : dictFind? vtx g.nodes with
    | none => exact absurd hx hv
    | some w => exact ⟨w, rfl⟩
  unfold kgAddEdge
  by_cases hu : (dictFind? u g.nodes).isSome
  · rw [if_pos hu]
    dsimp only
    rw [if_pos (by rw [hw]; rfl)]
    left
    split <;> rfl
  · rw [if_neg hu]
    dsimp only
    rw [if_pos (by rw [dictFind?_append_left vtx hw]; rfl)]
    right
    split <;> rfl

/-- `add_edge` with a present target changes no node's recorded value. -/
theorem nodeMetricValue_kgAddEdge (g : FinKG) (u vtx : String) (attrs : Attrs)
    (k : String) (hv : ¬ dictFind? vtx g.nodes = none) :
    nodeMetricValue (kgAddEdge g u vtx attrs) k = nodeMetricValue g k := by
  unfold nodeMetricValue
  rcases kgAddEdge_nodes g u vtx attrs hv with h | h
  · rw [h]
  · rw [h]
    exact valueEq_append_bare g.nodes u k

/-- The nodes field of `add_metric_node`. -/
theorem add_metric_node_nodes (g : FinKG) (t m : String) (v : ℚ) (y : Int) :
    (add_metric_node g t m v y).nodes =
      (kgAddEdge (kgAddNode g (metricKey t m y)
        [("node_type", .s "metric"), ("ticker", .s t), ("metric", .s m),
         ("value", .q v), ("year", .i y)]) t (metricKey t m y)
        [("relationship", .s "has_metric")]).nodes := by
  unfold add_metric_node
  rfl

/-- `add_node` leaves the metrics history unchanged. -/
theorem kgAddNode_history (g : FinKG) (k : String) (a : Attrs) :
    (kgAddNode g k a).metrics_history = g.metrics_history := by
  unfold kgAddNode
  split <;> rfl

/-- `add_edge` leaves the metrics history unchanged. -/
theorem kgAddEdge_history (g : FinKG) (u v : String) (a : Attrs) :
    (kgAddEdge g u v a).metrics_history = g.metrics_history := by
  unfold kgAddEdge
  dsimp only
  split <;> split <;> split <;> rfl

theorem add_metric_node_history_raw (g : FinKG) (t m : String) (v : ℚ) (y : Int) :
    (add_metric_node g t m v y).metrics_history =
      (let tm := (dictFind? t g.metrics_history).getD [];
       dictUpsert t (dictUpsert m
        (dictUpsert y v ((dictFind? m tm).getD [])) tm) g.metrics_history) := by
  unfold add_metric_node
  dsimp only
  rw [kgAddEdge_history, kgAddNode_history]

/-- The node value recorded by `add_metric_node` under its own key. -/
theorem nodeMetricValue_add_self (g : FinKG) (t m : String) (v : ℚ) (y : Int) :
    nodeMetricValue (add_metric_node g t m v y) (metricKey t m y) = some v := by
  show valueOfNodes (add_metric_node g t m v y).nodes (metricKey t m y) = some v
  rw [add_metric_node_nodes]
  rw [show ∀ g2 : FinKG, valueOfNodes g2.nodes (metricKey t m y) =
    nodeMetricValue g2 (metricKey t m y) from fun _ => rfl]
  rw [nodeMetricValue_kgAddEdge _ _ _ _ _
    (by rw [dictFind?_kgAddNode_self]; simp)]
  unfold nodeMetricValue valueOfNodes
  rw [dictFind?_kgAddNode_self]
  cases hf : dictFind? (metricKey t m y) g.nodes with
  | none =>
      dsimp only
      rfl
  | some old =>
      dsimp only
      show (match dictFind? "value" (attrsUpdate old _) with
        | some (.q v2) => some v2
        | _ => none) = some v
      unfold attrsUpdate
      simp only [List.foldl_cons, List.foldl_nil]
      rw [dictFind?_dictUpsert_ne _ (by decide) _,
        dictFind?_dictUpsert_self]

/-- The node value under any other key is unchanged by `add_metric_node`. -/
theorem nodeMetricValue_add_ne (g : FinKG) (t0 m0 : String) (v0 : ℚ) (y0 : Int)
    {key : String} (hne : key ≠ metricKey t0 m0 y0) :
    nodeMetricValue (add_metric_node g t0 m0 v0 y0) key = nodeMetricValue g key := by
  show valueOfNodes (add_metric_node g t0 m0 v0 y0).nodes key = nodeMetricValue g key
  rw [add_metric_node_nodes]
  rw [show ∀ g2 : FinKG, valueOfNodes g2.nodes key =
    nodeMetricValue g2 key from fun _ => rfl]
  rw [nodeMetricValue_kgAddEdge _ _ _ _ _
    (by rw [dictFind?_kgAddNode_self]; simp)]
  unfold nodeMetricValue valueOfNodes
  rw [dictFind?_kgAddNode_ne _ _ _ hne]

/-- The history value recorded by `add_metric_node` under its own triple. -/
theorem historyValue_add_self (g : FinKG) (t m : String) (v : ℚ) (y : Int) :
    historyValue (add_metric_node g t m v y) t m y = some v := by
  show historyOfList (add_metric_node g t m v y).metrics_history t m y = some v
  rw [add_metric_node_history_raw]
  unfold historyOfList
  dsimp only
  rw [dictFind?_dictUpsert_self]
  dsimp only
  rw [dictFind?_dictUpsert_self]
  dsimp only
  rw [dictFind?_dictUpsert_self]

/-- The history value under any other triple is unchanged by `add_metric_node`. -/
theorem historyValue_add_ne (g : FinKG) (t m : String) (v : ℚ) (y : Int)
    (t2 m2 : String) (y2 : Int) (h : ¬ (t2 = t ∧ m2 = m ∧ y2 = y)) :
    historyValue (add_metric_node g t m v y) t2 m2 y2 =
      historyValue g t2 m2 y2 := by
  show historyOfList (add_metric_node g t m v y).metrics_history t2 m2 y2 =
    historyOfList g.metrics_history t2 m2 y2
  rw [add_metric_node_history_raw]
  unfold historyOfList
  dsimp only
  by_cases ht : t2 = t
  · subst ht
    rw [dictFind?_dictUpsert_self]
    dsimp only
    cases hmt : dictFind? t2 g.metrics_history with
    | none =>
        dsimp only [Option.getD]
        by_cases hm : m2 = m
        · subst hm
          rw [dictFind?_dictUpsert_self]
          dsimp only
          have hy : y2 ≠ y := by
            intro he
            exact h ⟨rfl, rfl, he⟩
          rw [show dictFind? m2 ([] : List (String × List (Int × ℚ))) = none from rfl]
          dsimp only [Option.getD]
          rw [show dictUpsert y v ([] : List (Int × ℚ)) = [(y, v)] from rfl]
          rw [show dictFind? y2 [(y, v)] = none by
            simp [dictFind?, Ne.symm hy]]
        · rw [dictFind?_dictUpsert_ne _ (Ne.symm (fun he => hm he.symm)) _]
          rfl
    | some tm0 =>
        dsimp only [Option.getD]
        by_cases hm : m2 = m
        · subst hm
          rw [dictFind?_dictUpsert_self]
          dsimp only
          have hy : y2 ≠ y := by
            intro he
            exact h ⟨rfl, rfl, he⟩
          cases hmy : dictFind? m2 tm0 with
          | none =>
              dsimp only [Option.getD]
              rw [show dictUpsert y v ([] : List (Int × ℚ)) = [(y, v)] from rfl]
              rw [show dictFind? y2 [(y, v)] = none by
                simp [dictFind?, Ne.symm hy]]
          | some ym0 =>
              dsimp only [Option.getD]
              rw [dictFind?_dictUpsert_ne _ hy _]
        · rw [dictFind?_dictUpsert_ne _ (Ne.symm (fun he => hm he.symm)) _]
  · rw [dictFind?_dictUpsert_ne _ ht _]

/-- Appending an absent key preserves key distinctness. -/
theorem nodup_append_absent {κ ν : Type} [DecidableEq κ] (l : List (κ × ν))
    (k : κ) (v : ν) (h : (l.map Prod.fst).Nodup) (hf : dictFind? k l = none) :
    (((l ++ [(k, v)]).map Prod.fst)).Nodup := by
  rw [List.map_append, List.nodup_append]
  refine ⟨h, List.nodup_singleton k, ?_⟩
  intro a ha hb
  simp at hb
  subst hb
  exact absurd hf (by rw [dictFind?_eq_none_iff]; simp [ha])

/-- `add_node` preserves node-key distinctness. -/
theorem nodup_kgAddNode (g : FinKG) (k : String) (a : Attrs)
    (h : (g.nodes.map Prod.fst).Nodup) :
    ((kgAddNode g k a).nodes.map Prod.fst).Nodup := by
  unfold kgAddNode
  cases hf : dictFind? k g.nodes with
  | some old =>
      dsimp only
      exact nodup_dictUpsert _ _ _ h
  | none =>
      dsimp only
      exact nodup_append_absent _ _ _ h hf

/-- `add_edge` preserves node-key distinctness. -/
theorem nodup_kgAddEdge (g : FinKG) (u v : String) (a : Attrs)
    (h : (g.nodes.map Prod.fst).Nodup) :
    ((kgAddEdge g u v a).nodes.map Prod.fst).Nodup := by
  unfold kgAddEdge
  dsimp only
  by_cases h1 : (dictFind? u g.nodes).isSome
  · rw [if_pos h1]
    by_cases h2 : (dictFind? v g.nodes).isSome
    · rw [if_pos h2]
      split <;> exact h
    · rw [if_neg h2]
      have habs : dictFind? v g.nodes = none := Option.not_isSome_iff_eq_none.mp h2
      split <;> exact nodup_append_absent _ _ _ h habs
  · rw [if_neg h1]
    dsimp only
    have habs1 : dictFind? u g.nodes = none := Option.not_isSome_iff_eq_none.mp h1
    have hn1 : ((g.nodes ++ [(u, ([] : Attrs))]).map Prod.fst).Nodup :=
      nodup_append_absent _ _ _ h habs1
    by_cases h2 : (dictFind? v (g.nodes ++ [(u, ([] : Attrs))])).isSome
    · rw [if_pos h2]
      split <;> exact hn1
    · rw [if_neg h2]
      have habs2 : dictFind? v (g.nodes ++ [(u, ([] : Attrs))]) = none :=
        Option.not_isSome_iff_eq_none.mp h2
      split <;> exact nodup_append_absent _ _ _ hn1 habs2

/-- `add_metric_node` preserves node-key distinctness. -/
theorem nodup_add_metric_node (g : FinKG) (t m : String) (v : ℚ) (y : Int)
    (h : (g.nodes.map Prod.fst).Nodup) :
    ((add_metric_node g t m v y).nodes.map Prod.fst).Nodup := by
  rw [add_metric_node_nodes]
  exact nodup_kgAddEdge _ _ _ _ (nodup_kgAddNode _ _ _ h)

/-- The year-to-value list stored for `(ticker, metric)` in the history index. -/
def yearList (g : FinKG) (t m : String) : List (Int × ℚ) :=
  (dictFind? m ((dictFind? t g.metrics_history).getD [])).getD []

/-- `add_metric_node` upserts into the year list of its own `(ticker, metric)`. -/
theorem yearList_add_self (g : FinKG) (t m : String) (v : ℚ) (y : Int) :
    yearList (add_metric_node g t m v y) t m = dictUpsert y v (yearList g t m) := by
  unfold yearList
  rw [add_metric_node_history_raw]
  dsimp only
  rw [dictFind?_dictUpsert_self]
  dsimp only [Option.getD]
  rw [dictFind?_dictUpsert_self]

/-- A sequence of `add_metric_node` calls, each given as
`(ticker, metric, year, value)`. -/
def addCalls (g : FinKG) : List (String × String × Int × ℚ) → FinKG
  | [] => g
  | (t, m, y, v) :: rest => addCalls (add_metric_node g t m v y) rest

/-- The value of the last call in the list whose composite node key is `key`. -/
def lastValueByKey (key : String) : List (String × String × Int × ℚ) → Option ℚ
  | [] => none
  | (t, m, y, v) :: rest =>
      match lastValueByKey key rest with
      | some w => some w
      | none => if metricKey t m y = key then some v else none

/-- The value of the last call in the list made for exactly this triple. -/
def lastValueByTriple (t m : String) (y : Int) :
    List (String × String × Int × ℚ) → Option ℚ
  | [] => none
  | (t2, m2, y2, v) :: rest =>
      match lastValueByTriple t m y rest with
      | some w => some w
      | none => if t2 = t ∧ m2 = m ∧ y2 = y then some v else none

/-- Node values after a call sequence: the last call whose key matches wins. -/
theorem nodeMetricValue_addCalls (key : String) :
    ∀ (calls : List (String × String × Int × ℚ)) (g : FinKG),
      nodeMetricValue (addCalls g calls) key =
        (match lastValueByKey key calls with
         | some w => some w
         | none => nodeMetricValue g key) := by
  intro calls
  induction calls with
  | nil => intro g; rfl
  | cons c rest ih =>
      intro g
      obtain ⟨t, m, y, v⟩ := c
      show nodeMetricValue (addCalls (add_metric_node g t m v y) rest) key = _
      rw [ih]
      simp only [lastValueByKey]
      cases hr : lastValueByKey key rest with
      | some w => rfl
      | none =>
          dsimp only
          by_cases hk : metricKey t m y = key
          · rw [if_pos hk]
            dsimp only
            rw [← hk]
            exact nodeMetricValue_add_self g t m v y
          · rw [if_neg hk]
            dsimp only
            exact nodeMetricValue_add_ne g t m v y (Ne.symm hk)

/-- History values after a call sequence: the last call for the triple wins. -/
theorem historyValue_addCalls (t m : String) (y : Int) :
    ∀ (calls : List (String × String × Int × ℚ)) (g : FinKG),
      historyValue (addCalls g calls) t m y =
        (match lastValueByTriple t m y calls with
         | some w => some w
         | none => historyValue g t m y) := by
  intro calls
  induction calls with
  | nil => intro g; rfl
  | cons c rest ih =>
      intro g
      obtain ⟨t2, m2, y2, v⟩ := c
      show historyValue (addCalls (add_metric_node g t2 m2 v y2) rest) t m y = _
      rw [ih]
      simp only [lastValueByTriple]
      cases hr : lastValueByTriple t m y rest with
      | some w => rfl
      | none =>
          dsimp only
          by_cases hk : t2 = t ∧ m2 = m ∧ y2 = y
          · rw [if_pos hk]
            dsimp only
            obtain ⟨ha, hb, hc⟩ := hk
            subst ha
            subst hb
            subst hc
            exact historyValue_add_self g t2 m2 v y2
          · rw [if_neg hk]
            dsimp only
            have h2 : ¬ (t = t2 ∧ m = m2 ∧ y = y2) :=
              fun hc => hk ⟨hc.1.symm, hc.2.1.symm, hc.2.2.symm⟩
            exact historyValue_add_ne g t2 m2 v y2 t m y h2

/-- When no call key collides with the key of the queried triple, selecting by
composite key and selecting by triple agree. -/
theorem lastValue_key_triple (t m : String) (y : Int) :
    ∀ calls : List (String × String × Int × ℚ),
      (∀ c ∈ calls, metricKey c.1 c.2.1 c.2.2.1 = metricKey t m y →
        c.1 = t ∧ c.2.1 = m ∧ c.2.2.1 = y) →
      lastValueByKey (metricKey t m y) calls = lastValueByTriple t m y calls := by
  intro calls
  induction calls with
  | nil => intro _; rfl
  | cons c rest ih =>
      intro h
      obtain ⟨t2, m2, y2, v⟩ := c
      simp only [lastValueByKey, lastValueByTriple]
      rw [ih (fun c2 hc2 => h c2 (List.mem_cons_of_mem _ hc2))]
      cases lastValueByTriple t m y rest with
      | some w => rfl
      | none =>
          dsimp only
          by_cases hk : metricKey t2 m2 y2 = metricKey t m y
          · have hT := h (t2, m2, y2, v) (List.mem_cons_self _ _) hk
            rw [if_pos hk, if_pos hT]
          · have hcond : ¬ (t2 = t ∧ m2 = m ∧ y2 = y) := fun hc =>
              hk (by rw [hc.1, hc.2.1, hc.2.2])
            rw [if_neg hk, if_neg hcond]

/-- C8 (amended): a double write to the same `(ticker, metric, year)` leaves
exactly one node under the composite key and exactly one year entry in the
history index, both carrying the last value written; and over any sequence of
`add_metric_node` calls whose composite keys do not collide with the key of the
queried triple, the graph node value and the history index agree. -/
theorem add_metric_node_amended (g : FinKG) (t m : String) (y : Int) (v1 v2 : ℚ)
    (hn : (g.nodes.map Prod.fst).Nodup)
    (hy : ((yearList g t m).map Prod.fst).Nodup)
    (calls : List (String × String × Int × ℚ)) (t0 m0 : String) (y0 : Int)
    (hinj : ∀ c ∈ calls, metricKey c.1 c.2.1 c.2.2.1 = metricKey t0 m0 y0 →
      c.1 = t0 ∧ c.2.1 = m0 ∧ c.2.2.1 = y0) :
    (((add_metric_node (add_metric_node g t m v1 y) t m v2 y).nodes.filter
        (fun p => decide (p.1 = metricKey t m y))).length = 1 ∧
     ((yearList (add_metric_node (add_metric_node g t m v1 y) t m v2 y) t m).filter
        (fun p => decide (p.1 = y))).length = 1 ∧
     nodeMetricValue (add_metric_node (add_metric_node g t m v1 y) t m v2 y)
        (metricKey t m y) = some v2 ∧
     historyValue (add_metric_node (add_metric_node g t m v1 y) t m v2 y) t m y =
        some v2) ∧
    nodeMetricValue (addCalls {} calls) (metricKey t0 m0 y0) =
      historyValue (addCalls {} calls) t0 m0 y0 := by
  have hval : nodeMetricValue (add_metric_node (add_metric_node g t m v1 y) t m v2 y)
      (metricKey t m y) = some v2 := nodeMetricValue_add_self _ t m v2 y
  have hnodup : (((add_metric_node (add_metric_node g t m v1 y) t m v2 y).nodes.map
      Prod.fst)).Nodup :=
    nodup_add_metric_node _ t m v2 y (nodup_add_metric_node g t m v1 y hn)
  constructor
  · refine ⟨?_, ?_, hval, historyValue_add_self _ t m v2 y⟩
    · obtain ⟨attrs, hattrs⟩ : ∃ attrs,
        dictFind? (metricKey t m y)
          (add_metric_node (add_metric_node g t m v1 y) t m v2 y).nodes =
          some attrs := by
        cases hf : dictFind? (metricKey t m y)
            (add_metric_node (add_metric_node g t m v1 y) t m v2 y).nodes with
        | some a => exact ⟨a, rfl⟩
        | none =>
            unfold nodeMetricValue valueOfNodes at hval
            rw [hf] at hval
            exact absurd hval (by simp)
      exact countKey_eq_one _ _ _ hnodup hattrs
    · have hyl : yearList (add_metric_node (add_metric_node g t m v1 y) t m v2 y) t m =
        dictUpsert y v2 (dictUpsert y v1 (yearList g t m)) := by
        rw [yearList_add_self, yearList_add_self]
      rw [hyl]
      exact countKey_eq_one _ _ _
        (nodup_dictUpsert _ _ _ (nodup_dictUpsert _ _ _ hy))
        (dictFind?_dictUpsert_self _ _ _)
  · rw [nodeMetricValue_addCalls, historyValue_addCalls,
      lastValue_key_triple t0 m0 y0 calls hinj]
    cases lastValueByTriple t0 m0 y0 calls with
    | some w => rfl
    | none => rfl

theorem add_metric_node_amended_witness :
    ((({} : FinKG).nodes.map Prod.fst).Nodup ∧
     ((yearList ({} : FinKG) "AAPL" "revenue").map Prod.fst).Nodup ∧
     (∀ c ∈ [("AAPL", "revenue", (2020 : Int), (100 : ℚ)),
             ("MSFT", "eps", (2021 : Int), (3 : ℚ))],
        metricKey c.1 c.2.1 c.2.2.1 = metricKey "AAPL" "revenue" 2020 →
        c.1 = "AAPL" ∧ c.2.1 = "revenue" ∧ c.2.2.1 = (2020 : Int))) ∧
    ((((add_metric_node (add_metric_node {} "AAPL" "revenue" 100 2020)
          "AAPL" "revenue" 200 2020).nodes.filter
        (fun p => decide (p.1 = metricKey "AAPL" "revenue" 2020))).length = 1 ∧
     ((yearList (add_metric_node (add_metric_node {} "AAPL" "revenue" 100 2020)
          "AAPL" "revenue" 200 2020) "AAPL" "revenue").filter
        (fun p => decide (p.1 = (2020 : Int)))).length = 1 ∧
     nodeMetricValue (add_metric_node (add_metric_node {} "AAPL" "revenue" 100 2020)
          "AAPL" "revenue" 200 2020) (metricKey "AAPL" "revenue" 2020) = some 200 ∧
     historyValue (add_metric_node (add_metric_node {} "AAPL" "revenue" 100 2020)
          "AAPL" "revenue" 200 2020) "AAPL" "revenue" 2020 = some 200) ∧
    nodeMetricValue (addCalls {} [("AAPL", "revenue", (2020 : Int), (100 : ℚ)),
          ("MSFT", "eps", (2021 : Int), (3 : ℚ))])
        (metricKey "AAPL" "revenue" 2020) =
      historyValue (addCalls {} [("AAPL", "revenue", (2020 : Int), (100 : ℚ)),
          ("MSFT", "eps", (2021 : Int), (3 : ℚ))]) "AAPL" "revenue" 2020) :=
  ⟨⟨by with_unfolding_all decide, by with_unfolding_all decide,
    by with_unfolding_all decide⟩,
   add_metric_node_amended {} "AAPL" "revenue" 2020 100 200
     (by with_unfolding_all decide) (by with_unfolding_all decide)
     [("AAPL", "revenue", (2020 : Int), (100 : ℚ)),
      ("MSFT", "eps", (2021 : Int), (3 : ℚ))] "AAPL" "revenue" 2020
     (by with_unfolding_all decide)⟩

/-! ## C9 -/

/-- Two knowledge graphs with equal fields are equal. -/
theorem finkg_ext {a b : FinKG} (h1 : a.nodes = b.nodes) (h2 : a.edges = b.edges)
    (h3 : a.metadata = b.metadata) (h4 : a.metrics_history = b.metrics_history) :
    a = b := by
  cases a
  cases b
  dsimp at h1 h2 h3 h4
  subst h1
  subst h2
  subst h3
  subst h4
  rfl

/-- `add_node` leaves the edge list unchanged. -/
theorem kgAddNode_edges (g : FinKG) (k : String) (a : Attrs) :
    (kgAddNode g k a).edges = g.edges := by
  unfold kgAddNode
  split <;> rfl

/-- `add_node` leaves the metadata unchanged. -/
theorem kgAddNode_metadata (g : FinKG) (k : String) (a : Attrs) :
    (kgAddNode g k a).metadata = g.metadata := by
  unfold kgAddNode
  split <;> rfl

/-- `add_edge` leaves the metadata unchanged. -/
theorem kgAddEdge_metadata (g : FinKG) (u v : String) (a : Attrs) :
    (kgAddEdge g u v a).metadata = g.metadata := by
  unfold kgAddEdge
  dsimp only
  split <;> split <;> split <;> rfl

/-- Re-adding saved nodes leaves the accumulated edge list unchanged. -/
theorem loadNodes_edges : ∀ (l : List (String × Attrs)) (g : FinKG),
    (l.foldl (fun acc nv => kgAddNode acc nv.1 nv.2) g).edges = g.edges := by
  intro l
  induction l with
  | nil => intro g; rfl
  | cons h t ih =>
      intro g
      rw [List.foldl_cons, ih, kgAddNode_edges]

/-- Re-adding saved nodes leaves the accumulated metadata unchanged. -/
theorem loadNodes_metadata : ∀ (l : List (String × Attrs)) (g : FinKG),
    (l.foldl (fun acc nv => kgAddNode acc nv.1 nv.2) g).metadata = g.metadata := by
  intro l
  induction l with
  | nil => intro g; rfl
  | cons h t ih =>
      intro g
      rw [List.foldl_cons, ih, kgAddNode_metadata]

/-- Re-adding node entries with fresh, distinct keys appends them verbatim. -/
theorem loadNodes_nodes : ∀ (l : List (String × Attrs)) (g : FinKG),
    (∀ k ∈ l.map Prod.fst, dictFind? k g.nodes = none) →
    (l.map Prod.fst).Nodup →
    (l.foldl (fun acc nv => kgAddNode acc nv.1 nv.2) g).nodes = g.nodes ++ l := by
  intro l
  induction l with
  | nil => intro g _ _; simp
  | cons h t ih =>
      intro g habs hnd
      obtain ⟨k, a⟩ := h
      rw [List.foldl_cons]
      have hk : dictFind? k g.nodes = none := habs k (by simp)
      have hstep : (kgAddNode g k a).nodes = g.nodes ++ [(k, a)] := by
        unfold kgAddNode
        rw [hk]
      rw [List.map_cons, List.nodup_cons] at hnd
      have habs2 : ∀ k2 ∈ t.map Prod.fst,
          dictFind? k2 (kgAddNode g k a).nodes = none := by
        intro k2 hk2
        rw [hstep]
        have hne : k2 ≠ k := fun hq => hnd.1 (hq ▸ hk2)
        rw [dictFind?_append_single_ne hne]
        exact habs k2 (by simp [hk2])
      rw [ih (kgAddNode g k a) habs2 hnd.2, hstep, List.append_assoc]
      rfl

/-- Re-adding saved edges between present endpoints with fresh, distinct edge
keys appends them verbatim and leaves the node list unchanged. -/
theorem loadEdges_spec : ∀ (l : List ((String × String) × Attrs)) (g : FinKG),
    (∀ e ∈ l, ¬ dictFind? e.1.1 g.nodes = none ∧ ¬ dictFind? e.1.2 g.nodes = none) →
    (∀ p ∈ l.map Prod.fst, dictFind? p g.edges = none) →
    (l.map Prod.fst).Nodup →
    (l.foldl (fun acc ev => kgAddEdge acc ev.1.1 ev.1.2 ev.2) g).edges =
        g.edges ++ l ∧
    (l.foldl (fun acc ev => kgAddEdge acc ev.1.1 ev.1.2 ev.2) g).nodes = g.nodes ∧
    (l.foldl (fun acc ev => kgAddEdge acc ev.1.1 ev.1.2 ev.2) g).metadata =
        g.metadata ∧
    (l.foldl (fun acc ev => kgAddEdge acc ev.1.1 ev.1.2 ev.2) g).metrics_history =
        g.metrics_history := by
  intro l
  induction l with
  | nil => intro g _ _ _; exact ⟨by simp, rfl, rfl, rfl⟩
  | cons e t ih =>
      intro g hep habs hnd
      obtain ⟨⟨u, v⟩, a⟩ := e
      rw [List.foldl_cons]
      have hu : ¬ dictFind? u g.nodes = none :=
        (hep ((u, v), a) (List.mem_cons_self _ _)).1
      have hv : ¬ dictFind? v g.nodes = none :=
        (hep ((u, v), a) (List.mem_cons_self _ _)).2
      have hke : dictFind? (u, v) g.edges = none := habs (u, v) (by simp)
      have hstep : kgAddEdge g u v a =
          { g with edges := g.edges ++ [((u, v), a)] } := by
        unfold kgAddEdge
        dsimp only
        have hu2 : (dictFind? u g.nodes).isSome = true := by
          cases hx : dictFind? u g.nodes with
          | none => exact absurd hx hu
          | some w => rfl
        rw [if_pos hu2]
        have hv2 : (dictFind? v g.nodes).isSome = true := by
          cases hx : dictFind? v g.nodes with
          | none => exact absurd hx hv
          | some w => rfl
        rw [if_pos hv2, hke]
      rw [List.map_cons, List.nodup_cons] at hnd
      have hep2 : ∀ e2 ∈ t,
          ¬ dictFind? e2.1.1 ({ g with edges := g.edges ++ [((u, v), a)] } : FinKG).nodes = none ∧
          ¬ dictFind? e2.1.2 ({ g with edges := g.edges ++ [((u, v), a)] } : FinKG).nodes = none := by
        intro e2 he2
        exact hep e2 (List.mem_cons_of_mem _ he2)
      have habs2 : ∀ p ∈ t.map Prod.fst,
          dictFind? p ({ g with edges := g.edges ++ [((u, v), a)] } : FinKG).edges = none := by
        intro p hp
        have hne : p ≠ (u, v) := fun hq => hnd.1 (hq ▸ hp)
        show dictFind? p (g.edges ++ [((u, v), a)]) = none
        rw [dictFind?_append_single_ne hne]
        exact habs p (by simp [hp])
      obtain ⟨he1, he2, he3, he4⟩ :=
        ih { g with edges := g.edges ++ [((u, v), a)] } hep2 habs2 hnd.2
      rw [hstep]
      refine ⟨?_, ?_, ?_, ?_⟩
      · rw [he1, List.append_assoc]
        rfl
      · exact he2
      · exact he3
      · exact he4

/-- Fuel-bounded digit extraction round-trips below the fuel bound. -/
theorem decValN_natDigitsAux : ∀ (f n : Nat), n ≤ f →
    decValN (natDigitsAux f n) = n := by
  intro f
  induction f with
  | zero =>
      intro n h
      have h0 : n = 0 := Nat.le_zero.mp h
      subst h0
      rfl
  | succ f ih =>
      intro n h
      by_cases h0 : n = 0
      · subst h0
        rfl
      · show decValN (if n = 0 then [] else n % 10 :: natDigitsAux f (n / 10)) = n
        rw [if_neg h0]
        show n % 10 + 10 * decValN (natDigitsAux f (n / 10)) = n
        rw [ih (n / 10) (by omega)]
        omega

/-- The year key survives the string round trip. -/
theorem intOfYear_strOfYear (y : Int) : intOfYearStr (strOfYear y) = y := by
  unfold strOfYear intOfYearStr decDigits
  dsimp only
  rw [decValN_natDigitsAux y.natAbs y.natAbs le_rfl]
  by_cases hy : y < 0
  · rw [if_pos (decide_eq_true hy)]
    omega
  · rw [if_neg (fun hq => hy (of_decide_eq_true hq))]
    omega

/-- Mapping a pointwise-identity function is the identity. -/
theorem listMapId {α : Type} (f : α → α) (h : ∀ x, f x = x) :
    ∀ l : List α, l.map f = l := by
  intro l
  induction l with
  | nil => rfl
  | cons a t ih => rw [List.map_cons, h a, ih]

/-- The year-to-value list survives the save format round trip. -/
theorem yearSave_roundtrip (l : List (Int × ℚ)) :
    (l.map (fun yv => (strOfYear yv.1, yv.2))).map
      (fun yv => (intOfYearStr yv.1, yv.2)) = l := by
  rw [List.map_map]
  refine listMapId _ ?_ l
  intro yv
  show (intOfYearStr (strOfYear yv.1), yv.2) = yv
  rw [intOfYear_strOfYear]

/-- The metric-to-years map survives the save format round trip. -/
theorem metricSave_roundtrip (l : List (String × List (Int × ℚ))) :
    (l.map (fun mm => (mm.1, mm.2.map (fun yv => (strOfYear yv.1, yv.2))))).map
      (fun mm => (mm.1, mm.2.map (fun yv => (intOfYearStr yv.1, yv.2)))) = l := by
  rw [List.map_map]
  refine listMapId _ ?_ l
  intro mm
  show (mm.1, (mm.2.map (fun yv => (strOfYear yv.1, yv.2))).map
      (fun yv => (intOfYearStr yv.1, yv.2))) = mm
  rw [yearSave_roundtrip]

/-- The full metrics history survives the save format round trip. -/
theorem histSave_roundtrip
    (mh : List (String × List (String × List (Int × ℚ)))) :
    (mh.map (fun tm => (tm.1, tm.2.map (fun mm =>
        (mm.1, mm.2.map (fun yv => (strOfYear yv.1, yv.2))))))).map (fun tm =>
      (tm.1, tm.2.map (fun mm =>
        (mm.1, mm.2.map (fun yv => (intOfYearStr yv.1, yv.2)))))) = mh := by
  rw [List.map_map]
  refine listMapId _ ?_ mh
  intro tm
  show (tm.1, (tm.2.map (fun mm => (mm.1, mm.2.map
      (fun yv => (strOfYear yv.1, yv.2))))).map (fun mm =>
      (mm.1, mm.2.map (fun yv => (intOfYearStr yv.1, yv.2))))) = tm
  rw [metricSave_roundtrip]

/-- Claim C9: saving and loading restores the store exactly, for every store
whose node keys are distinct, whose edge keys are distinct, and whose edges
join existing nodes — properties every store built through the add methods
has. -/
theorem kgSave_kgLoad_roundtrip (g : FinKG)
    (hn : (g.nodes.map Prod.fst).Nodup)
    (he : (g.edges.map Prod.fst).Nodup)
    (hep : ∀ e ∈ g.edges,
      e.1.1 ∈ g.nodes.map Prod.fst ∧ e.1.2 ∈ g.nodes.map Prod.fst) :
    kgLoad (kgSave g) = g := by
  unfold kgLoad kgSave
  dsimp only
  have hg1nodes :
      (g.nodes.foldl (fun acc nv => kgAddNode acc nv.1 nv.2) ({} : FinKG)).nodes =
        g.nodes := by
    rw [loadNodes_nodes g.nodes ({} : FinKG) (fun k _ => rfl) hn]
    rfl
  have hg1edges :
      (g.nodes.foldl (fun acc nv => kgAddNode acc nv.1 nv.2) ({} : FinKG)).edges =
        ([] : List ((String × String) × Attrs)) :=
    loadNodes_edges g.nodes ({} : FinKG)
  have hg1md :
      (g.nodes.foldl (fun acc nv => kgAddNode acc nv.1 nv.2) ({} : FinKG)).metadata =
        ([] : List (String × Attrs)) :=
    loadNodes_metadata g.nodes ({} : FinKG)
  have hep2 : ∀ e ∈ g.edges,
      ¬ dictFind? e.1.1
        (g.nodes.foldl (fun acc nv => kgAddNode acc nv.1 nv.2) ({} : FinKG)).nodes =
        none ∧
      ¬ dictFind? e.1.2
        (g.nodes.foldl (fun acc nv => kgAddNode acc nv.1 nv.2) ({} : FinKG)).nodes =
        none := by
    intro e hee
    rw [hg1nodes]
    constructor
    · intro hq
      exact (dictFind?_eq_none_iff _ _).mp hq (hep e hee).1
    · intro hq
      exact (dictFind?_eq_none_iff _ _).mp hq (hep e hee).2
  have habs2 : ∀ p ∈ g.edges.map Prod.fst,
      dictFind? p
        (g.nodes.foldl (fun acc nv => kgAddNode acc nv.1 nv.2) ({} : FinKG)).edges =
        none := by
    intro p _
    rw [hg1edges]
    rfl
  obtain ⟨hE, hN, hM, _⟩ := loadEdges_spec g.edges
    (g.nodes.foldl (fun acc nv => kgAddNode acc nv.1 nv.2) ({} : FinKG))
    hep2 habs2 he
  refine finkg_ext ?_ ?_ ?_ ?_
  · show (g.edges.foldl (fun acc ev => kgAddEdge acc ev.1.1 ev.1.2 ev.2)
      (g.nodes.foldl (fun acc nv => kgAddNode acc nv.1 nv.2) ({} : FinKG))).nodes =
      g.nodes
    rw [hN, hg1nodes]
  · show (g.edges.foldl (fun acc ev => kgAddEdge acc ev.1.1 ev.1.2 ev.2)
      (g.nodes.foldl (fun acc nv => kgAddNode acc nv.1 nv.2) ({} : FinKG))).edges =
      g.edges
    rw [hE, hg1edges]
    rfl
  · rfl
  · exact histSave_roundtrip g.metrics_history

theorem kgSave_kgLoad_roundtrip_witness :
    (((add_metric_node (add_company_node {} "AAPL" "Apple" "Tech" "US" "t0")
        "AAPL" "revenue" 100 2020).nodes.map Prod.fst).Nodup ∧
     ((add_metric_node (add_company_node {} "AAPL" "Apple" "Tech" "US" "t0")
        "AAPL" "revenue" 100 2020).edges.map Prod.fst).Nodup ∧
     (∀ e ∈ (add_metric_node (add_company_node {} "AAPL" "Apple" "Tech" "US" "t0")
        "AAPL" "revenue" 100 2020).edges,
      e.1.1 ∈ (add_metric_node (add_company_node {} "AAPL" "Apple" "Tech" "US" "t0")
        "AAPL" "revenue" 100 2020).nodes.map Prod.fst ∧
      e.1.2 ∈ (add_metric_node (add_company_node {} "AAPL" "Apple" "Tech" "US" "t0")
        "AAPL" "revenue" 100 2020).nodes.map Prod.fst)) ∧
    kgLoad (kgSave (add_metric_node (add_company_node {} "AAPL" "Apple" "Tech" "US" "t0")
        "AAPL" "revenue" 100 2020)) =
      add_metric_node (add_company_node {} "AAPL" "Apple" "Tech" "US" "t0")
        "AAPL" "revenue" 100 2020 :=
  ⟨⟨by with_unfolding_all decide, by with_unfolding_all decide,
    by with_unfolding_all decide⟩,
   kgSave_kgLoad_roundtrip
     (add_metric_node (add_company_node {} "AAPL" "Apple" "Tech" "US" "t0")
        "AAPL" "revenue" 100 2020)
     (by with_unfolding_all decide) (by with_unfolding_all decide)
     (by with_unfolding_all decide)⟩

end EVL
